import Mathlib

/-! # ralphloop: the iteration control loop of `internal/loop/loop.go`

A shallow embedding of `Run` (from the point where the command line has been
parsed and the state directory bootstrapped, line 151 on) and of `runAgent`.

* Go strings are lists of runes (`Str`).
* Everything `Run` reads from outside (the embedded system prompt, the files
  the agent edits, the lines of standard input, the result of the agent
  subprocess, the success of each file operation the code checks, what a
  write that fails leaves on disk) is a field of `Env`; the two files the
  session owns (the approval marker and the prompt document) are the `Store`.
* Everything `Run` does to the outside is an `Event`; the outcome keeps the
  events of start-up, of every iteration of the loop, and of the clean-up,
  in separate lists.
* The loop counter `i` is an unbounded integer: `i++` cannot overflow a Go
  `int` before `2^63 - 1` iterations have run.
-/

namespace Loop

/-- A Go string, as its sequence of runes. -/
abbrev Str := List Char

/-- A string constant of the source. -/
def lit (s : String) : Str := s.toList

/-! ## The functions of package `strings` that `Run` calls -/

/-- Go `strings.HasPrefix`. -/
def HasPrefix : Str → Str → Bool
  | _, [] => true
  | [], _ :: _ => false
  | c :: s, p :: ps => c == p && HasPrefix s ps

/-- Go `strings.Contains`: `substr` occurs in `s` at some position. -/
def Contains : Str → Str → Bool
  | [], substr => HasPrefix [] substr
  | c :: s, substr => HasPrefix (c :: s) substr || Contains s substr

/-- Go `strings.Join`. -/
def Join : List Str → Str → Str
  | [], _ => []
  | [a], _ => a
  | a :: b :: rest, sep => a ++ sep ++ Join (b :: rest) sep

/-- Go `strings.ToUpper`, rune by rune. The ASCII letters are mapped as Go maps
them; every other rune is kept (Go maps it by `unicode.ToUpper`, which sends
no rune outside `a`..`z` to one of `D`, `O`, `N`, `E`). -/
def ToUpper (s : Str) : Str := s.map Char.toUpper

/-- Go `strings.ToLower`, rune by rune. The ASCII letters are mapped as Go maps
them; every other rune is kept (Go maps it by `unicode.ToLower`, which sends
no rune outside `A`..`Z` to a letter of `approve`). -/
def ToLower (s : Str) : Str := s.map Char.toLower

/-- Go `unicode.IsSpace`: the Latin-1 spaces and the runes of category Z with
property Pattern_White_Space. -/
def isSpace (c : Char) : Bool :=
  let n := c.toNat
  n == 0x09 || n == 0x0A || n == 0x0B || n == 0x0C || n == 0x0D || n == 0x20 ||
  n == 0x85 || n == 0xA0 || n == 0x1680 || (0x2000 ≤ n && n ≤ 0x200A) ||
  n == 0x2028 || n == 0x2029 || n == 0x202F || n == 0x205F || n == 0x3000

/-- Go `strings.TrimSpace`: leading and trailing white space removed. -/
def TrimSpace (s : Str) : Str :=
  ((s.dropWhile isSpace).reverse.dropWhile isSpace).reverse

/-! ## Session, environment, store -/

/-- The value of `subcommand` once the `switch` of `Run` has been passed. -/
inductive Subcommand
  | plan
  | run
  deriving DecidableEq, Repr

/-- What the command line leaves to the loop: `subcommand`, `goal`, `*maxIter`
and `*verbose`. -/
structure Session where
  subcommand : Subcommand
  goal : Str
  maxIter : Int
  verbose : Bool
  deriving DecidableEq, Repr

/-- One entry of `os.ReadDir(".")`: `f.Name()` and `f.IsDir()`. -/
structure DirEntry where
  name : Str
  isDir : Bool
  deriving DecidableEq, Repr

/-- What the reads of one iteration return: the directory entries, and for
each fragment the content of the file, or `none` when `os.ReadFile` fails. -/
structure Disk where
  entries : List DirEntry
  prdJson : Option Str
  prdMd : Option Str
  qaPlan : Option Str
  progress : Option Str
  guardrails : Option Str
  errors : Option Str
  deriving DecidableEq, Repr

/-- How the subprocess of `runAgent` ends: `cmd.Start` fails, or the process
runs, writes `out` and `cmd.Wait` returns no error (`waitOk`) or an error. -/
inductive Proc
  | startFailed
  | exited (out : Str) (waitOk : Bool)
  deriving DecidableEq, Repr

/-- The error value `runAgent` returns beside the output. -/
inductive AgentError
  | failedToStart
  | finishedWithError
  deriving DecidableEq, Repr

/-- How appending to the activity log ends: `os.OpenFile` fails, or the file is
opened and `WriteString` and `Close` succeed or not. -/
inductive Append
  | openFailed
  | opened (writeOk closeOk : Bool)
  deriving DecidableEq, Repr

/-- The world outside the controller. The functions of an iteration number
give what that iteration meets. -/
structure Env where
  /-- Content of the embedded `prompts/system.md` (part of the binary: the read
  of lines 180-183 does not fail). -/
  systemPrompt : Str
  /-- What the reads of iteration `i` return. -/
  disk : Int → Disk
  /-- How the agent subprocess of iteration `i` ends. -/
  agent : Int → Proc
  /-- The lines `scanner.Scan` yields, in order, before it returns false. -/
  stdin : List Str
  /-- `os.Remove` of the approval marker succeeds. -/
  removeApprovedOk : Bool
  /-- `os.WriteFile` of the prompt document succeeds in iteration `i`. -/
  writePromptOk : Int → Bool
  /-- How the append to the activity log ends in iteration `i`. -/
  appendActivity : Int → Append
  /-- `os.WriteFile` of the raw-output log succeeds in iteration `i`. -/
  writeRunLogOk : Int → Bool
  /-- `os.WriteFile` of the approval marker succeeds in iteration `i`. -/
  writeApprovedOk : Int → Bool
  /-- `os.Remove` of an existing prompt document succeeds. -/
  removePromptOk : Bool
  /-- What an `os.WriteFile` of the prompt document that fails in iteration `i`
  leaves: `none` when the file is as it was (it could not be opened), else the
  content of the file it created or truncated before it failed. -/
  writePromptLeaves : Int → Option Str
  /-- An `os.WriteFile` of the approval marker that fails in iteration `i` has
  created the file before it failed. -/
  writeApprovedLeaves : Int → Bool

/-- The two files the session owns: `.ralph/PLAN_APPROVED` (`approved`: `os.Stat`
finds it) and `.ralph/PROMPT.md` (its content, `none` when absent). Only the
controller changes them. An `os.Remove` that fails leaves the file; an
`os.WriteFile` that fails leaves what `Env.writePromptLeaves` and
`Env.writeApprovedLeaves` say, since it opens the file with `O_CREATE|O_TRUNC`
before it writes. -/
structure Store where
  approved : Bool
  prompt : Option Str
  deriving DecidableEq, Repr

/-! ## Events -/

/-- The lines `Run` and `runAgent` log. -/
inductive LogMsg
  | existingPlan
  | removeApprovalWarning
  | planNotApproved
  | iterationHeader (i maxIter : Int)
  | debugPrompt (fullPrompt : Str)
  | writePromptError
  | debugAgentCommand
  | consultingAgent
  | agentError (e : AgentError)
  | activityWriteWarning
  | activityCloseWarning
  | runLogWarning
  | agentDone
  | approvalWriteFatal
  | planApproved
  | maxIterations
  | removePromptWarning
  | finished
  deriving DecidableEq, Repr

/-- The two questions printed before a line is read. -/
inductive Question
  | approveOrFeedback
  | feedback
  deriving DecidableEq, Repr

/-- What the controller does to the outside world. -/
inductive Event
  | log (m : LogMsg)
  | removeApproved (ok : Bool)
  | writePrompt (fullPrompt : Str) (ok : Bool)
  | agentRun (p : Proc)
  | appendActivity (i : Int) (sub : Subcommand) (a : Append)
  | writeRunLog (i : Int) (output : Str) (ok : Bool)
  | ask (q : Question)
  | scan (line : Option Str)
  | writeApproved (ok : Bool)
  | removePrompt (ok : Bool)
  deriving DecidableEq, Repr

/-! ## Prompt assembly (lines 175-232) -/

/-- Lines 175-178: the phase directive. -/
def phase : Subcommand → Str
  | .plan => (lit "PLANNING PHASE: You are in DESIGN mode. ONLY modify .ralph/ files. DO NOT write code or install dependencies. Once the plan is ready, STOP and wait for approval.")
  | .run => (lit "EXECUTION PHASE: Implement the approved plan story by story. Run verification scripts.")

/-- Lines 193-204: the loop over the directory entries, appending to
`fileList`. -/
def fileList (files : List DirEntry) : List Str :=
  files.foldl
    (fun fileList f =>
      if HasPrefix f.name (lit ".") && f.name != (lit ".ralph") then fileList
      else if f.isDir then fileList ++ [f.name ++ (lit "/")]
      else fileList ++ [f.name])
    []

/-- Lines 185-232: the value of `fullPrompt` when it is written to the prompt
document, from the embedded system prompt, the phase directive, the goal, the
pending feedback and what the reads of the iteration return. -/
def assemblePrompt (systemPrompt phase goal userFeedback : Str) (d : Disk) : Str :=
  let fullPrompt := (lit "# SYSTEM PROMPT\n") ++ systemPrompt ++ (lit "\n\n# CURRENT PHASE\n") ++
    phase ++ (lit "\n\n# USER GOAL\n") ++ goal ++ (lit "\n\n")
  let fullPrompt :=
    if userFeedback ≠ [] then
      fullPrompt ++ (lit "# USER FEEDBACK / ANSWERS\n" ++ userFeedback ++ (lit "\n\n"))
    else fullPrompt
  let fullPrompt := fullPrompt ++ (lit "# CURRENT WORKSPACE\n")
  let fullPrompt := fullPrompt ++
    (lit "Files: " ++ Join (fileList d.entries) (lit ", ") ++ (lit "\n\n"))
  let fullPrompt := fullPrompt ++ (lit "# PROJECT PROGRESS\n")
  let fullPrompt :=
    match d.prdJson with
    | some prdData => fullPrompt ++ (lit "## Current PRD (JSON):\n" ++ prdData ++ (lit "\n\n"))
    | none =>
      match d.prdMd with
      | some prdData =>
        fullPrompt ++ (lit "## Current PRD (Markdown):\n" ++ prdData ++ (lit "\n\n"))
      | none => fullPrompt ++ (lit "No PRD generated yet.\n\n")
  let fullPrompt :=
    match d.qaPlan with
    | some qaData => fullPrompt ++ (lit "## Current QA Plan:\n" ++ qaData ++ (lit "\n\n"))
    | none => fullPrompt ++ (lit "No QA Plan generated yet.\n\n")
  let fullPrompt :=
    match d.progress with
    | some progData =>
      if progData.length > 0 then
        fullPrompt ++ (lit "## Progress Log:\n" ++ progData ++ (lit "\n\n"))
      else fullPrompt
    | none => fullPrompt
  let fullPrompt :=
    match d.guardrails with
    | some guardData =>
      if guardData.length > 0 then
        fullPrompt ++ (lit "## Guardrails (Lessons Learned):\n" ++ guardData ++ (lit "\n\n"))
      else fullPrompt
    | none => fullPrompt
  let fullPrompt :=
    match d.errors with
    | some errData =>
      if errData.length > 0 then
        fullPrompt ++ (lit "## Error Notes:\n" ++ errData ++ (lit "\n\n"))
      else fullPrompt
    | none => fullPrompt
  fullPrompt

/-! ## The agent runner (lines 30-54) -/

/-- What `runAgent` logs and does, and the two values it returns. -/
structure AgentReturn where
  events : List Event
  output : Str
  err : Option AgentError

/-- Lines 30-54: the subprocess ends as `p` says. A start failure returns the
empty output; a process that ran returns what it wrote, with an error when
`cmd.Wait` reports one. -/
def runAgent (p : Proc) (verbose : Bool) : AgentReturn :=
  let logged := if verbose then [Event.log .debugAgentCommand] else [Event.log .consultingAgent]
  match p with
  | .startFailed => ⟨logged ++ [.agentRun p], [], some .failedToStart⟩
  | .exited out false => ⟨logged ++ [.agentRun p], out, some .finishedWithError⟩
  | .exited out true => ⟨logged ++ [.agentRun p], out, none⟩

/-! ## One iteration of the loop (lines 173-296) -/

/-- The variables that live across iterations: `userFeedback`, what is left of
standard input, and the files the session owns. -/
structure LoopState where
  userFeedback : Str
  stdin : List Str
  store : Store
  deriving DecidableEq, Repr

/-- How the loop body ends: it falls through to `i++`, it executes `break`, or
`log.Fatalf` ends the process. -/
inductive Control
  | next
  | stop
  | fatal
  deriving DecidableEq, Repr

/-- The events of one iteration, the state it leaves and how it ends. -/
structure Round where
  events : List Event
  state : LoopState
  control : Control

/-- Lines 253-261: the warnings of the append to the activity log. -/
def activityWarnings : Append → List Event
  | .openFailed => []
  | .opened writeOk closeOk =>
    (if writeOk then [] else [Event.log .activityWriteWarning]) ++
    (if closeOk then [] else [Event.log .activityCloseWarning])

/-- What the first part of an iteration leaves: its events, `userFeedback`
after the assembly, the files the session owns, and the `output` of the agent. -/
structure Recorded where
  events : List Event
  userFeedback : Str
  store : Store
  output : Str

/-- Lines 173-266: the prompt is assembled (the pending feedback is cleared when
it is injected) and written, the agent runs, the activity line and the
raw-output log are written. -/
def record (env : Env) (s : Session) (i : Int) (st : LoopState) : Recorded :=
  let fullPrompt := assemblePrompt env.systemPrompt (phase s.subcommand) s.goal st.userFeedback
    (env.disk i)
  let userFeedback := if st.userFeedback ≠ [] then [] else st.userFeedback
  let store :=
    if env.writePromptOk i then { st.store with prompt := some fullPrompt }
    else
      match env.writePromptLeaves i with
      | none => st.store
      | some left => { st.store with prompt := some left }
  let r := runAgent (env.agent i) s.verbose
  { events :=
      [Event.log (.iterationHeader i s.maxIter)] ++
      (if s.verbose then [Event.log (.debugPrompt fullPrompt)] else []) ++
      [Event.writePrompt fullPrompt (env.writePromptOk i)] ++
      (if env.writePromptOk i then [] else [Event.log .writePromptError]) ++
      r.events ++
      (match r.err with
        | some e => [Event.log (.agentError e)]
        | none => []) ++
      [Event.appendActivity i s.subcommand (env.appendActivity i)] ++
      activityWarnings (env.appendActivity i) ++
      [Event.writeRunLog i r.output (env.writeRunLogOk i)] ++
      (if env.writeRunLogOk i then [] else [Event.log .runLogWarning])
    userFeedback := userFeedback
    store := store
    output := r.output }

/-- Lines 273-292: the continuation prompt of an iteration before the last. -/
def continuation (env : Env) (s : Session) (planningComplete : Bool) (i : Int)
    (st : LoopState) : Round :=
  let q := if s.subcommand = .plan && !planningComplete then Question.approveOrFeedback
    else Question.feedback
  match st.stdin with
  | [] => ⟨[.ask q, .scan none], st, .next⟩
  | input :: rest =>
    if s.subcommand = .plan && !planningComplete &&
        ToLower (TrimSpace input) == (lit "approve") then
      if env.writeApprovedOk i then
        ⟨[.ask q, .scan (some input), .writeApproved true, .log .planApproved],
          ⟨st.userFeedback, rest, { st.store with approved := true }⟩, .stop⟩
      else
        ⟨[.ask q, .scan (some input), .writeApproved false, .log .approvalWriteFatal],
          ⟨st.userFeedback, rest,
            { st.store with approved := st.store.approved || env.writeApprovedLeaves i }⟩,
          .fatal⟩
    else
      ⟨[.ask q, .scan (some input)], ⟨input, rest, st.store⟩, .next⟩

/-- Lines 268-296: the DONE check, the continuation prompt on an iteration before
the last, the notice on the last. `st` is the state after the assembly. -/
def conclude (env : Env) (s : Session) (planningComplete : Bool) (i : Int)
    (output : Str) (st : LoopState) : Round :=
  if Contains (ToUpper output) (lit "DONE") then
    ⟨[.log .agentDone], st, .stop⟩
  else
    let c := if i < s.maxIter then continuation env s planningComplete i st else ⟨[], st, .next⟩
    match c.control with
    | .next => ⟨c.events ++ (if i = s.maxIter then [.log .maxIterations] else []), c.state, .next⟩
    | .stop => ⟨c.events, c.state, .stop⟩
    | .fatal => ⟨c.events, c.state, .fatal⟩

/-- Lines 173-296: the body of the loop at counter `i`. -/
def iteration (env : Env) (s : Session) (planningComplete : Bool) (i : Int)
    (st : LoopState) : Round :=
  let r := record env s i st
  let c := conclude env s planningComplete i r.output ⟨r.userFeedback, st.stdin, r.store⟩
  ⟨r.events ++ c.events, c.state, c.control⟩

/-! ## The loop and `Run` (lines 151-302) -/

/-- How the loop ends: its condition fails or `break` runs; `log.Fatalf` ends
the process; or the fuel of the model is used up. -/
inductive LoopEnd
  | left
  | fatal
  | outOfFuel
  deriving DecidableEq, Repr

/-- The events of each iteration that ran, the state after the last one, and
how the loop ended. -/
structure LoopResult where
  rounds : List (List Event)
  state : LoopState
  ending : LoopEnd

/-- Lines 172-297: `for i := ...; i <= *maxIter; i++`, from counter `i` on. -/
def loop (env : Env) (s : Session) (planningComplete : Bool) :
    Nat → Int → LoopState → LoopResult
  | fuel, i, st =>
    if i ≤ s.maxIter then
      match fuel with
      | 0 => ⟨[], st, .outOfFuel⟩
      | fuel + 1 =>
        let r := iteration env s planningComplete i st
        match r.control with
        | .next =>
          let rest := loop env s planningComplete fuel (i + 1) r.state
          ⟨r.events :: rest.rounds, rest.state, rest.ending⟩
        | .stop => ⟨[r.events], r.state, .left⟩
        | .fatal => ⟨[r.events], r.state, .fatal⟩
    else ⟨[], st, .left⟩

/-- What a session leaves: the events before the loop, those of each iteration,
those after the loop, the files the session owns as they are at the end, and
the exit status (`some 0`: `Run` returns; `some 1`: `os.Exit(1)` or
`log.Fatalf`; `none`: the fuel of the model ran out). -/
structure Outcome where
  startup : List Event
  rounds : List (List Event)
  cleanup : List Event
  store : Store
  exitCode : Option Nat
  deriving DecidableEq, Repr

/-- Every event of a session, in order. -/
def Outcome.trace (o : Outcome) : List Event :=
  o.startup ++ o.rounds.flatten ++ o.cleanup

/-- Lines 151-302 of `Run`: the approval gate, the loop, the removal of the
prompt document. `store` is what the session finds on disk. -/
def Run (env : Env) (s : Session) (store : Store) : Outcome :=
  let planningComplete := store.approved
  let reenter := s.subcommand = .plan && planningComplete
  let startup :=
    if reenter then
      [Event.log .existingPlan, .removeApproved env.removeApprovedOk] ++
        (if env.removeApprovedOk then [] else [Event.log .removeApprovalWarning])
    else []
  let store :=
    if reenter && env.removeApprovedOk then { store with approved := false } else store
  let planningComplete := if reenter then false else planningComplete
  if s.subcommand = .run && !planningComplete then
    ⟨startup ++ [.log .planNotApproved], [], [], store, some 1⟩
  else
    let r := loop env s planningComplete s.maxIter.toNat 1 ⟨[], env.stdin, store⟩
    match r.ending with
    | .left =>
      let ok :=
        match r.state.store.prompt with
        | none => false
        | some _ => env.removePromptOk
      ⟨startup, r.rounds,
        [Event.removePrompt ok] ++ (if ok then [] else [Event.log .removePromptWarning]) ++
          [Event.log .finished],
        if ok then { r.state.store with prompt := none } else r.state.store, some 0⟩
    | .fatal => ⟨startup, r.rounds, [], r.state.store, some 1⟩
    | .outOfFuel => ⟨startup, r.rounds, [], r.state.store, none⟩

/-! ## The assembly of the source, section by section

The strings that `assemblePrompt` appends, grouped by section, over the
constants and the functions of the source (`lit`, `phase`, `Join`). The proofs
bring `assemblePrompt` to this form first. -/

/-- The entries the loop of lines 193-204 keeps. -/
def listed (f : DirEntry) : Bool :=
  f.name.head? != some '.' || f.name == (lit ".ralph")

/-- How the listing shows an entry: a directory with `/` after its name. -/
def shown (f : DirEntry) : Str :=
  if f.isDir then f.name ++ ['/'] else f.name

/-- The listing of line 205. -/
def listingSpec (files : List DirEntry) : Str :=
  (lit "Files: ") ++ Join ((files.filter listed).map shown) (lit ", ")

/-- The system-prompt section. -/
def systemSection (systemPrompt : Str) : Str :=
  (lit "# SYSTEM PROMPT\n") ++ systemPrompt ++ (lit "\n\n")

/-- The phase-directive section. -/
def phaseSection (sub : Subcommand) : Str :=
  (lit "# CURRENT PHASE\n") ++ phase sub ++ (lit "\n\n")

/-- The goal section. -/
def goalSection (goal : Str) : Str :=
  (lit "# USER GOAL\n") ++ goal ++ (lit "\n\n")

/-- The feedback section: present when the pending feedback is not empty. -/
def feedbackSection (userFeedback : Str) : Option Str :=
  if userFeedback = [] then none
  else some (lit "# USER FEEDBACK / ANSWERS\n" ++ userFeedback ++ (lit "\n\n"))

/-- The workspace listing section. -/
def workspaceSection (files : List DirEntry) : Str :=
  (lit "# CURRENT WORKSPACE\n") ++ listingSpec files ++ (lit "\n\n")

/-- The PRD section, under the heading of the project progress: the JSON PRD
when readable, else the Markdown PRD when readable, else the placeholder. -/
def prdSection (d : Disk) : Str :=
  (lit "# PROJECT PROGRESS\n") ++
    (match d.prdJson, d.prdMd with
      | some json, _ => (lit "## Current PRD (JSON):\n") ++ json ++ (lit "\n\n")
      | none, some md => (lit "## Current PRD (Markdown):\n") ++ md ++ (lit "\n\n")
      | none, none => (lit "No PRD generated yet.") ++ (lit "\n\n"))

/-- The QA plan section, or its placeholder. -/
def qaSection (d : Disk) : Str :=
  match d.qaPlan with
  | some qa => (lit "## Current QA Plan:\n") ++ qa ++ (lit "\n\n")
  | none => (lit "No QA Plan generated yet.") ++ (lit "\n\n")

/-- A section that is present when its file is readable and not empty. -/
def optionalSection (heading : Str) (file : Option Str) : Option Str :=
  match file with
  | none => none
  | some content => if content = [] then none else some (heading ++ content ++ (lit "\n\n"))

/-- The ten sections of the prompt, in order, `none` for one that is absent. -/
def sections (systemPrompt : Str) (sub : Subcommand) (goal userFeedback : Str) (d : Disk) :
    List (Option Str) :=
  [some (systemSection systemPrompt), some (phaseSection sub), some (goalSection goal),
   feedbackSection userFeedback, some (workspaceSection d.entries), some (prdSection d),
   some (qaSection d), optionalSection (lit "## Progress Log:\n") d.progress,
   optionalSection (lit "## Guardrails (Lessons Learned):\n") d.guardrails,
   optionalSection (lit "## Error Notes:\n") d.errors]

/-- The prompt as the concatenation of the sections that are present. -/
def promptSpec (systemPrompt : Str) (sub : Subcommand) (goal userFeedback : Str) (d : Disk) :
    Str :=
  ((sections systemPrompt sub goal userFeedback d).filterMap id).flatten

/-! ## The prompt in the words of the specification

Nothing here uses a definition that embeds the source: the texts are spelled
out and the lists are handled by the functions of the library. -/

/-- The entries the listing keeps: those whose name does not start with `.`,
and the state-store directory `.ralph`. -/
def Spec.listed (f : DirEntry) : Bool :=
  f.name.head? != some '.' || f.name == ".ralph".toList

/-- How the listing shows an entry: a directory with `/` after its name. -/
def Spec.shown (f : DirEntry) : Str :=
  if f.isDir then f.name ++ "/".toList else f.name

/-- The listing: `Files: ` and the entries kept, in order, joined by `, `. -/
def Spec.listing (files : List DirEntry) : Str :=
  "Files: ".toList ++ List.intercalate ", ".toList ((files.filter Spec.listed).map Spec.shown)

/-- The planning directive. -/
def Spec.planningDirective : Str :=
  "PLANNING PHASE: You are in DESIGN mode. ONLY modify .ralph/ files. DO NOT write code or install dependencies. Once the plan is ready, STOP and wait for approval.".toList

/-- The execution directive. -/
def Spec.executionDirective : Str :=
  "EXECUTION PHASE: Implement the approved plan story by story. Run verification scripts.".toList

/-- The directive of a subcommand: planning for `plan`, execution for `run`. -/
def Spec.directive : Subcommand → Str
  | .plan => Spec.planningDirective
  | .run => Spec.executionDirective

/-- A section: its heading, its body, and a blank line. -/
def Spec.headed (heading body : Str) : Str :=
  heading ++ body ++ "\n\n".toList

/-- The PRD section, under the heading of the project progress: the JSON PRD
when readable, else the Markdown PRD when readable, else the placeholder. -/
def Spec.prdSection (d : Disk) : Str :=
  "# PROJECT PROGRESS\n".toList ++
    (match d.prdJson, d.prdMd with
      | some json, _ => Spec.headed "## Current PRD (JSON):\n".toList json
      | none, some md => Spec.headed "## Current PRD (Markdown):\n".toList md
      | none, none => Spec.headed "No PRD generated yet.".toList [])

/-- The QA plan section, or its placeholder. -/
def Spec.qaSection (d : Disk) : Str :=
  match d.qaPlan with
  | some qa => Spec.headed "## Current QA Plan:\n".toList qa
  | none => Spec.headed "No QA Plan generated yet.".toList []

/-- A section that is present when its file is readable and not empty. -/
def Spec.optional (heading : Str) (file : Option Str) : Option Str :=
  match file with
  | none => none
  | some content => if content = [] then none else some (Spec.headed heading content)

/-- The ten sections of the prompt, in order, `none` for one that is absent;
the feedback section is present when the pending feedback is not empty. -/
def Spec.sections (systemPrompt : Str) (sub : Subcommand) (goal pending : Str) (d : Disk) :
    List (Option Str) :=
  [some (Spec.headed "# SYSTEM PROMPT\n".toList systemPrompt),
   some (Spec.headed "# CURRENT PHASE\n".toList (Spec.directive sub)),
   some (Spec.headed "# USER GOAL\n".toList goal),
   if pending = [] then none else some (Spec.headed "# USER FEEDBACK / ANSWERS\n".toList pending),
   some (Spec.headed "# CURRENT WORKSPACE\n".toList (Spec.listing d.entries)),
   some (Spec.prdSection d),
   some (Spec.qaSection d),
   Spec.optional "## Progress Log:\n".toList d.progress,
   Spec.optional "## Guardrails (Lessons Learned):\n".toList d.guardrails,
   Spec.optional "## Error Notes:\n".toList d.errors]

/-- The prompt: the concatenation of the sections that are present. -/
def Spec.prompt (systemPrompt : Str) (sub : Subcommand) (goal pending : Str) (d : Disk) : Str :=
  ((Spec.sections systemPrompt sub goal pending d).filterMap id).flatten

/-- The line an iteration read: the text of its first `scan` event, nothing
when the input was at its end or the iteration read no line. -/
def Spec.lineRead : List Event → Str
  | [] => []
  | .scan line :: _ => line.getD []
  | _ :: rest => Spec.lineRead rest

/-- The feedback pending when iteration `k + 1` starts, from the events of the
iterations: nothing at the first iteration, afterwards the line that the
iteration before read. -/
def Spec.pendingFeedback (rounds : List (List Event)) : Nat → Str
  | 0 => []
  | k + 1 => Spec.lineRead (rounds.getD k [])

/-! ## The states of the loop -/

/-- The state in which the iteration `k` places after counter `i` starts, when
the loop starts at `i` in state `st` and goes on that far. -/
def stateAt (env : Env) (s : Session) (planningComplete : Bool) :
    Int → LoopState → Nat → LoopState
  | _, st, 0 => st
  | i, st, k + 1 =>
    stateAt env s planningComplete (i + 1) (iteration env s planningComplete i st).state k

/-- The iteration `k` places after counter `i`, as the loop runs it. -/
def roundAt (env : Env) (s : Session) (planningComplete : Bool) (i : Int) (st : LoopState)
    (k : Nat) : Round :=
  iteration env s planningComplete (i + k) (stateAt env s planningComplete i st k)

/-- The line is an approval: `approve` once trimmed and lower-cased. -/
def isApprove (input : Str) : Bool :=
  ToLower (TrimSpace input) == (lit "approve")

/-- The output carries the completion token. -/
def isDone (output : Str) : Bool :=
  Contains (ToUpper output) (lit "DONE")

/-! ## Auxiliary definitions for the proofs -/

/-- The events that the first part of an iteration can leave. -/
def Event.recording : Event → Bool
  | .log (.iterationHeader ..) => true
  | .log (.debugPrompt _) => true
  | .log .writePromptError => true
  | .log .debugAgentCommand => true
  | .log .consultingAgent => true
  | .log (.agentError _) => true
  | .log .activityWriteWarning => true
  | .log .activityCloseWarning => true
  | .log .runLogWarning => true
  | .writePrompt .. => true
  | .agentRun _ => true
  | .appendActivity .. => true
  | .writeRunLog .. => true
  | _ => false

/-- The question an iteration prints before it reads a line. -/
def question (s : Session) (planningComplete : Bool) : Question :=
  if s.subcommand = .plan && !planningComplete then .approveOrFeedback else .feedback

/-- The ways an iteration can end, with the events after those of the record,
the state it leaves and the way the loop goes on. -/
inductive Ending (env : Env) (s : Session) (pc : Bool) (i : Int) (output : Str)
    (st : LoopState) : Round → Prop
  | done (h : isDone output = true) :
    Ending env s pc i output st ⟨[.log .agentDone], st, .stop⟩
  | last (h : isDone output = false) (hi : ¬ i < s.maxIter) :
    Ending env s pc i output st ⟨if i = s.maxIter then [.log .maxIterations] else [], st, .next⟩
  | eof (h : isDone output = false) (hi : i < s.maxIter) (hin : st.stdin = []) :
    Ending env s pc i output st ⟨[.ask (question s pc), .scan none], st, .next⟩
  | approve (input : Str) (rest : List Str) (h : isDone output = false) (hi : i < s.maxIter)
    (hin : st.stdin = input :: rest) (hs : s.subcommand = .plan) (hpc : pc = false)
    (ha : isApprove input = true) (hw : env.writeApprovedOk i = true) :
    Ending env s pc i output st
      ⟨[.ask (question s pc), .scan (some input), .writeApproved true, .log .planApproved],
        ⟨st.userFeedback, rest, { st.store with approved := true }⟩, .stop⟩
  | fatal (input : Str) (rest : List Str) (h : isDone output = false) (hi : i < s.maxIter)
    (hin : st.stdin = input :: rest) (hs : s.subcommand = .plan) (hpc : pc = false)
    (ha : isApprove input = true) (hw : env.writeApprovedOk i = false) :
    Ending env s pc i output st
      ⟨[.ask (question s pc), .scan (some input), .writeApproved false, .log .approvalWriteFatal],
        ⟨st.userFeedback, rest,
          { st.store with approved := st.store.approved || env.writeApprovedLeaves i }⟩,
        .fatal⟩
  | feedback (input : Str) (rest : List Str) (h : isDone output = false) (hi : i < s.maxIter)
    (hin : st.stdin = input :: rest)
    (hna : ¬ (s.subcommand = .plan ∧ pc = false ∧ isApprove input = true)) :
    Ending env s pc i output st
      ⟨[.ask (question s pc), .scan (some input)], ⟨input, rest, st.store⟩, .next⟩

/-- The value of `planningComplete` when the loop is entered. -/
def enteredComplete (s : Session) (store : Store) : Bool :=
  if s.subcommand = .plan && store.approved then false else store.approved

/-- The files the session owns when the loop is entered. -/
def enteredStore (env : Env) (s : Session) (store : Store) : Store :=
  if s.subcommand = .plan && store.approved && env.removeApprovedOk then
    { store with approved := false }
  else store

/-- The events before the loop of a session that passes the approval gate. -/
def enteredStartup (env : Env) (s : Session) (store : Store) : List Event :=
  if s.subcommand = .plan && store.approved then
    [Event.log .existingPlan, .removeApproved env.removeApprovedOk] ++
      (if env.removeApprovedOk then [] else [Event.log .removeApprovalWarning])
  else []

/-- The loop of a session that passes the approval gate. -/
def entered (env : Env) (s : Session) (store : Store) : LoopResult :=
  loop env s (enteredComplete s store) s.maxIter.toNat 1 ⟨[], env.stdin, enteredStore env s store⟩

/-- The removal of the prompt document succeeds: it is there and `os.Remove`
does not fail. -/
def removalOk (env : Env) (store : Store) : Bool :=
  match store.prompt with
  | none => false
  | some _ => env.removePromptOk

/-- The iteration `k` places after the first, in a session that entered the
loop. -/
def roundOf (env : Env) (s : Session) (store : Store) (k : Nat) : Round :=
  roundAt env s (enteredComplete s store) 1 ⟨[], env.stdin, enteredStore env s store⟩ k

/-! ## Sample inputs -/

/-- A workspace with a hidden directory, the state directory, a file and a
directory, and no fragment but empty progress, guardrails and error notes. -/
def sampleDisk : Disk :=
  { entries := [⟨lit ".git", true⟩, ⟨lit ".ralph", true⟩, ⟨lit "a.go", false⟩, ⟨lit "cmd", true⟩]
    prdJson := none
    prdMd := none
    qaPlan := none
    progress := some []
    guardrails := some []
    errors := some [] }

/-- A world in which every file operation succeeds (and a write that failed
would leave no file), with the given agent and the given lines on standard
input. -/
def sampleEnv (agent : Int → Proc) (stdin : List Str) : Env :=
  { systemPrompt := lit "SYS"
    disk := fun _ => sampleDisk
    agent := agent
    stdin := stdin
    removeApprovedOk := true
    writePromptOk := fun _ => true
    appendActivity := fun _ => .opened true true
    writeRunLogOk := fun _ => true
    writeApprovedOk := fun _ => true
    removePromptOk := true
    writePromptLeaves := fun _ => none
    writeApprovedLeaves := fun _ => false }

/-- An agent that thinks aloud and signals completion in its second run. -/
def doneSecond (i : Int) : Proc :=
  if i = 2 then .exited (lit "Here is the plan... done") true else .exited (lit "thinking") true

/-- An agent that never signals completion. -/
def neverDone (_ : Int) : Proc :=
  .exited (lit "thinking") true

/-- A plan session in which the operator approves at the first prompt while
the write of the marker fails. -/
def failingApproval : Env :=
  { sampleEnv neverDone [lit "approve"] with writeApprovedOk := fun _ => false }

/-- An agent that signals completion at once. -/
def doneAtOnce (_ : Int) : Proc :=
  .exited (lit "DONE") true

/-- A world in which the approval marker cannot be removed. -/
def stuckMarker : Env :=
  { sampleEnv doneAtOnce [] with removeApprovedOk := false }

/-- A world in which the prompt document cannot be removed. -/
def stuckPrompt : Env :=
  { sampleEnv doneAtOnce [] with removePromptOk := false }

/-- A workspace in which the agent has left both PRDs, a QA plan and a progress
log, empty guardrails and no error notes. -/
def busyDisk : Disk :=
  { entries := [⟨lit ".env", false⟩, ⟨lit ".ralph", true⟩, ⟨lit "main.go", false⟩,
      ⟨lit "pkg", true⟩]
    prdJson := some (lit "[]")
    prdMd := some (lit "# PRD")
    qaPlan := some (lit "run tests")
    progress := some (lit "step 1")
    guardrails := some []
    errors := none }

/-- A world in which every file operation succeeds, the workspace is `busyDisk`
and the agent never signals completion. -/
def busyEnv (stdin : List Str) : Env :=
  { sampleEnv neverDone stdin with disk := fun _ => busyDisk }

/-- An agent that prints the completion token and exits with an error. -/
def failedButDone (_ : Int) : Proc :=
  .exited (lit "DONE") false

/-! ## Properties of the prompt -/

theorem HasPrefix_dot (name : Str) : HasPrefix name (lit ".") = (name.head? == some '.') := by
  cases name with
  | nil => rfl
  | cons c t =>
    show (c == '.' && HasPrefix t []) = _
    cases t <;> simp [HasPrefix]

theorem fileList_foldl (files : List DirEntry) (acc : List Str) :
    files.foldl
      (fun fileList f =>
        if HasPrefix f.name (lit ".") && f.name != (lit ".ralph") then fileList
        else if f.isDir then fileList ++ [f.name ++ (lit "/")]
        else fileList ++ [f.name])
      acc = acc ++ (files.filter listed).map shown := by
  induction files generalizing acc with
  | nil => simp
  | cons f files ih =>
    rw [List.foldl_cons, ih]
    have hs : (lit "/") = ['/'] := rfl
    by_cases h1 : f.name.head? = some '.' <;> by_cases h2 : f.name = (lit ".ralph") <;>
      cases h3 : f.isDir <;> simp [HasPrefix_dot, listed, shown, h1, h2, h3, hs, List.filter_cons]

theorem fileList_eq (files : List DirEntry) :
    fileList files = (files.filter listed).map shown := by
  simpa [fileList] using fileList_foldl files []

theorem lit_phase_header : (lit "\n\n# CURRENT PHASE\n") = (lit "\n\n") ++ (lit "# CURRENT PHASE\n") := rfl

theorem lit_goal_header : (lit "\n\n# USER GOAL\n") = (lit "\n\n") ++ (lit "# USER GOAL\n") := rfl

theorem lit_no_prd : (lit "No PRD generated yet.\n\n") = (lit "No PRD generated yet.") ++ (lit "\n\n") := rfl

theorem lit_no_qa :
    (lit "No QA Plan generated yet.\n\n") = (lit "No QA Plan generated yet.") ++ (lit "\n\n") := rfl

theorem length_pos_eq (l : Str) : (l.length > 0) = (l ≠ []) := by
  cases l <;> simp

theorem optionalSection_append (fullPrompt heading : Str) (file : Option Str) :
    (match file with
      | some data => if data.length > 0 then fullPrompt ++ (heading ++ data ++ (lit "\n\n"))
        else fullPrompt
      | none => fullPrompt) =
    fullPrompt ++ ([optionalSection heading file].filterMap id).flatten := by
  cases file with
  | none => simp [optionalSection]
  | some data =>
    by_cases h : data = []
    · simp [optionalSection, h]
    · simp [optionalSection, h, length_pos_eq]

theorem assemblePrompt_eq (systemPrompt : Str) (sub : Subcommand) (goal userFeedback : Str)
    (d : Disk) :
    assemblePrompt systemPrompt (phase sub) goal userFeedback d =
      promptSpec systemPrompt sub goal userFeedback d := by
  have hfb : ∀ fullPrompt : Str,
      (if userFeedback ≠ [] then
        fullPrompt ++ ((lit "# USER FEEDBACK / ANSWERS\n") ++ userFeedback ++ (lit "\n\n"))
      else fullPrompt) = fullPrompt ++ ([feedbackSection userFeedback].filterMap id).flatten := by
    intro fullPrompt
    by_cases h : userFeedback = [] <;> simp [feedbackSection, h]
  have hprd : ∀ fullPrompt : Str,
      (match d.prdJson with
        | some prdData => fullPrompt ++ ((lit "## Current PRD (JSON):\n") ++ prdData ++ (lit "\n\n"))
        | none =>
          match d.prdMd with
          | some prdData =>
            fullPrompt ++ ((lit "## Current PRD (Markdown):\n") ++ prdData ++ (lit "\n\n"))
          | none => fullPrompt ++ (lit "No PRD generated yet.\n\n")) =
      fullPrompt ++ (match d.prdJson, d.prdMd with
        | some json, _ => (lit "## Current PRD (JSON):\n") ++ json ++ (lit "\n\n")
        | none, some md => (lit "## Current PRD (Markdown):\n") ++ md ++ (lit "\n\n")
        | none, none => (lit "No PRD generated yet.") ++ (lit "\n\n")) := by
    intro fullPrompt
    cases d.prdJson <;> cases d.prdMd <;> simp [lit_no_prd]
  have hqa : ∀ fullPrompt : Str,
      (match d.qaPlan with
        | some qaData => fullPrompt ++ ((lit "## Current QA Plan:\n") ++ qaData ++ (lit "\n\n"))
        | none => fullPrompt ++ (lit "No QA Plan generated yet.\n\n")) =
      fullPrompt ++ qaSection d := by
    intro fullPrompt
    unfold qaSection
    cases d.qaPlan <;> simp [lit_no_qa]
  unfold assemblePrompt
  simp only [hfb, hprd, hqa, optionalSection_append]
  simp only [promptSpec, sections, systemSection, phaseSection, goalSection,
    workspaceSection, prdSection, listingSpec, fileList_eq, lit_phase_header, lit_goal_header,
    List.filterMap_cons, id, List.filterMap_nil, List.flatten_cons, List.flatten_nil,
    List.append_assoc, List.append_nil]
  cases feedbackSection userFeedback <;>
    cases optionalSection (lit "## Progress Log:\n") d.progress <;>
    cases optionalSection (lit "## Guardrails (Lessons Learned):\n") d.guardrails <;>
    cases optionalSection (lit "## Error Notes:\n") d.errors <;>
    simp only [List.filterMap_cons, id, List.filterMap_nil, List.flatten_cons, List.flatten_nil,
      List.append_assoc, List.append_nil, List.nil_append]

theorem Join_eq_intercalate (l : List Str) (sep : Str) : Join l sep = List.intercalate sep l := by
  induction l with
  | nil => rfl
  | cons a t ih =>
    cases t with
    | nil => simp [Join, List.intercalate]
    | cons b rest =>
      rw [Join, ih]
      simp [List.intercalate]

theorem phase_eq_directive (sub : Subcommand) : phase sub = Spec.directive sub := by
  cases sub <;> rfl

theorem listingSpec_eq (files : List DirEntry) : listingSpec files = Spec.listing files := by
  unfold listingSpec Spec.listing
  rw [Join_eq_intercalate]
  rfl

theorem prdSection_eq (d : Disk) : prdSection d = Spec.prdSection d := by
  unfold prdSection Spec.prdSection
  cases d.prdJson <;> cases d.prdMd <;> rfl

theorem qaSection_eq (d : Disk) : qaSection d = Spec.qaSection d := by
  unfold qaSection Spec.qaSection
  cases d.qaPlan <;> rfl

theorem optionalSection_eq (heading : Str) (file : Option Str) :
    optionalSection heading file = Spec.optional heading file := by
  cases file <;> rfl

theorem sections_eq (systemPrompt : Str) (sub : Subcommand) (goal userFeedback : Str)
    (d : Disk) :
    sections systemPrompt sub goal userFeedback d =
      Spec.sections systemPrompt sub goal userFeedback d := by
  unfold sections Spec.sections
  rw [prdSection_eq, qaSection_eq, optionalSection_eq, optionalSection_eq, optionalSection_eq]
  unfold workspaceSection phaseSection
  rw [listingSpec_eq, phase_eq_directive]
  rfl

/-- The prompt the source assembles is the prompt of the specification. -/
theorem assemblePrompt_spec (systemPrompt : Str) (sub : Subcommand) (goal userFeedback : Str)
    (d : Disk) :
    assemblePrompt systemPrompt (phase sub) goal userFeedback d =
      Spec.prompt systemPrompt sub goal userFeedback d := by
  rw [assemblePrompt_eq]
  unfold promptSpec Spec.prompt
  rw [sections_eq]

/-! ## Properties of one iteration -/

theorem record_userFeedback (env : Env) (s : Session) (i : Int) (st : LoopState) :
    (record env s i st).userFeedback = [] := by
  by_cases h : st.userFeedback = [] <;> simp [record, h]

theorem record_output (env : Env) (s : Session) (i : Int) (st : LoopState) :
    (record env s i st).output = (runAgent (env.agent i) s.verbose).output := rfl

theorem record_store_approved (env : Env) (s : Session) (i : Int) (st : LoopState) :
    (record env s i st).store.approved = st.store.approved := by
  unfold record
  cases env.writePromptOk i <;> cases env.writePromptLeaves i <;> simp

theorem runAgent_events_recording (p : Proc) (verbose : Bool) :
    ∀ e ∈ (runAgent p verbose).events, e.recording = true := by
  rcases p with _ | ⟨out, _ | _⟩ <;> cases verbose <;> simp [runAgent, Event.recording]

theorem activityWarnings_recording (a : Append) :
    ∀ e ∈ activityWarnings a, e.recording = true := by
  rcases a with _ | ⟨_ | _, _ | _⟩ <;> simp [activityWarnings, Event.recording]

theorem record_events_recording (env : Env) (s : Session) (i : Int) (st : LoopState) :
    ∀ e ∈ (record env s i st).events, e.recording = true := by
  unfold record
  simp only [List.forall_mem_append]
  refine ⟨⟨⟨⟨⟨⟨⟨⟨⟨?_, ?_⟩, ?_⟩, ?_⟩, ?_⟩, ?_⟩, ?_⟩, ?_⟩, ?_⟩, ?_⟩
  · simp [Event.recording]
  · cases s.verbose <;> simp [Event.recording]
  · simp [Event.recording]
  · cases env.writePromptOk i <;> simp [Event.recording]
  · exact runAgent_events_recording _ _
  · cases (runAgent (env.agent i) s.verbose).err <;> simp [Event.recording]
  · simp [Event.recording]
  · exact activityWarnings_recording _
  · simp [Event.recording]
  · cases env.writeRunLogOk i <;> simp [Event.recording]

theorem mem_runAgent_events (p : Proc) (verbose : Bool) (e : Event) :
    e ∈ (runAgent p verbose).events ↔
      e = .log (if verbose then .debugAgentCommand else .consultingAgent) ∨ e = .agentRun p := by
  rcases p with _ | ⟨out, _ | _⟩ <;> cases verbose <;> simp [runAgent]

theorem activityWarnings_log (a : Append) :
    ∀ e ∈ activityWarnings a,
      e = .log .activityWriteWarning ∨ e = .log .activityCloseWarning := by
  rcases a with _ | ⟨_ | _, _ | _⟩ <;> simp [activityWarnings]

theorem writePrompt_mem_record (env : Env) (s : Session) (i : Int) (st : LoopState)
    (p : Str) (ok : Bool) :
    Event.writePrompt p ok ∈ (record env s i st).events ↔
      p = assemblePrompt env.systemPrompt (phase s.subcommand) s.goal st.userFeedback (env.disk i) ∧
        ok = env.writePromptOk i := by
  have hno : Event.writePrompt p ok ∉ activityWarnings (env.appendActivity i) :=
    fun h' => by simpa using activityWarnings_log _ _ h'
  simp only [record, List.mem_append, mem_runAgent_events]
  cases s.verbose <;> cases env.writePromptOk i <;> cases env.writeRunLogOk i <;>
    cases (runAgent (env.agent i) false).err <;> cases (runAgent (env.agent i) true).err <;>
    simp [hno]

theorem agentRun_mem_record (env : Env) (s : Session) (i : Int) (st : LoopState) (p : Proc) :
    Event.agentRun p ∈ (record env s i st).events ↔ p = env.agent i := by
  have hno : Event.agentRun p ∉ activityWarnings (env.appendActivity i) :=
    fun h' => by simpa using activityWarnings_log _ _ h'
  simp only [record, List.mem_append, mem_runAgent_events]
  cases s.verbose <;> cases env.writePromptOk i <;> cases env.writeRunLogOk i <;>
    cases (runAgent (env.agent i) false).err <;> cases (runAgent (env.agent i) true).err <;>
    simp [hno]

theorem writeRunLog_mem_record (env : Env) (s : Session) (i : Int) (st : LoopState)
    (j : Int) (output : Str) (ok : Bool) :
    Event.writeRunLog j output ok ∈ (record env s i st).events ↔
      j = i ∧ output = (runAgent (env.agent i) s.verbose).output ∧ ok = env.writeRunLogOk i := by
  have hno : Event.writeRunLog j output ok ∉ activityWarnings (env.appendActivity i) :=
    fun h' => by simpa using activityWarnings_log _ _ h'
  simp only [record, List.mem_append, mem_runAgent_events]
  cases s.verbose <;> cases env.writePromptOk i <;> cases env.writeRunLogOk i <;>
    cases (runAgent (env.agent i) false).err <;> cases (runAgent (env.agent i) true).err <;>
    simp [hno]

theorem appendActivity_mem_record (env : Env) (s : Session) (i : Int) (st : LoopState)
    (j : Int) (sub : Subcommand) (a : Append) :
    Event.appendActivity j sub a ∈ (record env s i st).events ↔
      j = i ∧ sub = s.subcommand ∧ a = env.appendActivity i := by
  have hno : Event.appendActivity j sub a ∉ activityWarnings (env.appendActivity i) :=
    fun h' => by simpa using activityWarnings_log _ _ h'
  simp only [record, List.mem_append, mem_runAgent_events]
  cases s.verbose <;> cases env.writePromptOk i <;> cases env.writeRunLogOk i <;>
    cases (runAgent (env.agent i) false).err <;> cases (runAgent (env.agent i) true).err <;>
    simp [hno]

theorem agentError_mem_record (env : Env) (s : Session) (i : Int) (st : LoopState)
    (e : AgentError) :
    Event.log (.agentError e) ∈ (record env s i st).events ↔
      (runAgent (env.agent i) s.verbose).err = some e := by
  have hno : Event.log (.agentError e) ∉ activityWarnings (env.appendActivity i) :=
    fun h' => by simpa using activityWarnings_log _ _ h'
  simp only [record, List.mem_append, mem_runAgent_events]
  cases s.verbose <;> cases env.writePromptOk i <;> cases env.writeRunLogOk i <;>
    cases (runAgent (env.agent i) false).err <;> cases (runAgent (env.agent i) true).err <;>
    simp [hno, eq_comm]

theorem conclude_done (env : Env) (s : Session) (pc : Bool) (i : Int) (output : Str)
    (st : LoopState) (h : isDone output = true) :
    conclude env s pc i output st = ⟨[.log .agentDone], st, .stop⟩ := by
  unfold isDone at h
  simp [conclude, h]

theorem conclude_last (env : Env) (s : Session) (pc : Bool) (i : Int) (output : Str)
    (st : LoopState) (h : isDone output = false) (hi : ¬ i < s.maxIter) :
    conclude env s pc i output st =
      ⟨if i = s.maxIter then [.log .maxIterations] else [], st, .next⟩ := by
  unfold isDone at h
  simp [conclude, h, hi]

theorem conclude_eof (env : Env) (s : Session) (pc : Bool) (i : Int) (output : Str)
    (st : LoopState) (h : isDone output = false) (hi : i < s.maxIter) (hin : st.stdin = []) :
    conclude env s pc i output st = ⟨[.ask (question s pc), .scan none], st, .next⟩ := by
  unfold isDone at h
  have hne : i ≠ s.maxIter := by omega
  simp [conclude, continuation, h, hi, hin, hne, question]

theorem conclude_approve (env : Env) (s : Session) (pc : Bool) (i : Int) (output : Str)
    (st : LoopState) (input : Str) (rest : List Str) (h : isDone output = false)
    (hi : i < s.maxIter) (hin : st.stdin = input :: rest) (hs : s.subcommand = .plan)
    (hpc : pc = false) (ha : isApprove input = true) (hw : env.writeApprovedOk i = true) :
    conclude env s pc i output st =
      ⟨[.ask (question s pc), .scan (some input), .writeApproved true, .log .planApproved],
        ⟨st.userFeedback, rest, { st.store with approved := true }⟩, .stop⟩ := by
  unfold isDone at h
  unfold isApprove at ha
  simp [conclude, continuation, h, hi, hin, hs, hpc, ha, hw, question]

theorem conclude_fatal (env : Env) (s : Session) (pc : Bool) (i : Int) (output : Str)
    (st : LoopState) (input : Str) (rest : List Str) (h : isDone output = false)
    (hi : i < s.maxIter) (hin : st.stdin = input :: rest) (hs : s.subcommand = .plan)
    (hpc : pc = false) (ha : isApprove input = true) (hw : env.writeApprovedOk i = false) :
    conclude env s pc i output st =
      ⟨[.ask (question s pc), .scan (some input), .writeApproved false, .log .approvalWriteFatal],
        ⟨st.userFeedback, rest,
          { st.store with approved := st.store.approved || env.writeApprovedLeaves i }⟩,
        .fatal⟩ := by
  unfold isDone at h
  unfold isApprove at ha
  simp [conclude, continuation, h, hi, hin, hs, hpc, ha, hw, question]

theorem conclude_feedback (env : Env) (s : Session) (pc : Bool) (i : Int) (output : Str)
    (st : LoopState) (input : Str) (rest : List Str) (h : isDone output = false)
    (hi : i < s.maxIter) (hin : st.stdin = input :: rest)
    (hna : ¬ (s.subcommand = .plan ∧ pc = false ∧ isApprove input = true)) :
    conclude env s pc i output st =
      ⟨[.ask (question s pc), .scan (some input)], ⟨input, rest, st.store⟩, .next⟩ := by
  unfold isDone at h
  unfold isApprove at hna
  have hne : i ≠ s.maxIter := by omega
  have hc : (decide (s.subcommand = .plan) && !pc &&
      ToLower (TrimSpace input) == (lit "approve")) = false := by
    rw [Bool.eq_false_iff]
    intro hc
    apply hna
    simpa [Bool.and_eq_true, and_assoc] using hc
  simp only [conclude, continuation, h, hi, hin, hne, question, hc]
  simp

theorem conclude_ending (env : Env) (s : Session) (pc : Bool) (i : Int) (output : Str)
    (st : LoopState) : Ending env s pc i output st (conclude env s pc i output st) := by
  cases h : isDone output with
  | true => rw [conclude_done env s pc i output st h]; exact .done h
  | false =>
    by_cases hi : i < s.maxIter
    · rcases hin : st.stdin with _ | ⟨input, rest⟩
      · rw [conclude_eof env s pc i output st h hi hin]; exact .eof h hi hin
      · by_cases ha : s.subcommand = .plan ∧ pc = false ∧ isApprove input = true
        · obtain ⟨hs, hpc, ha⟩ := ha
          cases hw : env.writeApprovedOk i with
          | true =>
            rw [conclude_approve env s pc i output st input rest h hi hin hs hpc ha hw]
            exact .approve input rest h hi hin hs hpc ha hw
          | false =>
            rw [conclude_fatal env s pc i output st input rest h hi hin hs hpc ha hw]
            exact .fatal input rest h hi hin hs hpc ha hw
        · rw [conclude_feedback env s pc i output st input rest h hi hin ha]
          exact .feedback input rest h hi hin ha
    · rw [conclude_last env s pc i output st h hi]; exact .last h hi

/-! ## Properties of the loop -/

theorem loop_zero (env : Env) (s : Session) (pc : Bool) (i : Int) (st : LoopState) :
    loop env s pc 0 i st = if i ≤ s.maxIter then ⟨[], st, .outOfFuel⟩ else ⟨[], st, .left⟩ := by
  simp [loop]

theorem loop_exhausted (env : Env) (s : Session) (pc : Bool) (fuel : Nat) (i : Int)
    (st : LoopState) (h : ¬ i ≤ s.maxIter) : loop env s pc fuel i st = ⟨[], st, .left⟩ := by
  cases fuel <;> simp [loop, h]

theorem loop_next (env : Env) (s : Session) (pc : Bool) (fuel : Nat) (i : Int)
    (st : LoopState) (h : i ≤ s.maxIter) (hc : (iteration env s pc i st).control = .next) :
    loop env s pc (fuel + 1) i st =
      ⟨(iteration env s pc i st).events ::
          (loop env s pc fuel (i + 1) (iteration env s pc i st).state).rounds,
        (loop env s pc fuel (i + 1) (iteration env s pc i st).state).state,
        (loop env s pc fuel (i + 1) (iteration env s pc i st).state).ending⟩ := by
  rw [loop]
  simp [h, hc]

theorem loop_stop (env : Env) (s : Session) (pc : Bool) (fuel : Nat) (i : Int)
    (st : LoopState) (h : i ≤ s.maxIter) (hc : (iteration env s pc i st).control = .stop) :
    loop env s pc (fuel + 1) i st =
      ⟨[(iteration env s pc i st).events], (iteration env s pc i st).state, .left⟩ := by
  rw [loop]
  simp [h, hc]

theorem loop_fatal (env : Env) (s : Session) (pc : Bool) (fuel : Nat) (i : Int)
    (st : LoopState) (h : i ≤ s.maxIter) (hc : (iteration env s pc i st).control = .fatal) :
    loop env s pc (fuel + 1) i st =
      ⟨[(iteration env s pc i st).events], (iteration env s pc i st).state, .fatal⟩ := by
  rw [loop]
  simp [h, hc]

theorem roundAt_zero (env : Env) (s : Session) (pc : Bool) (i : Int) (st : LoopState) :
    roundAt env s pc i st 0 = iteration env s pc i st := by
  simp [roundAt, stateAt]

theorem roundAt_succ (env : Env) (s : Session) (pc : Bool) (i : Int) (st : LoopState) (k : Nat) :
    roundAt env s pc i st (k + 1) = roundAt env s pc (i + 1) (iteration env s pc i st).state k := by
  simp only [roundAt, stateAt, Nat.cast_add, Nat.cast_one]
  congr 1
  omega

theorem stateAt_succ (env : Env) (s : Session) (pc : Bool) (i : Int) (st : LoopState) (k : Nat) :
    stateAt env s pc i st (k + 1) = (roundAt env s pc i st k).state := by
  induction k generalizing i st with
  | zero => simp [roundAt, stateAt]
  | succ k ih =>
    rw [roundAt_succ, ← ih]
    rfl

/-- Every iteration the loop ran is the iteration of its place, at most
`maxIter`, and all the iterations before it fell through to `i++`. -/
theorem loop_rounds_getElem (env : Env) (s : Session) (pc : Bool) (fuel : Nat) (i : Int)
    (st : LoopState) (k : Nat) (ev : List Event)
    (h : (loop env s pc fuel i st).rounds[k]? = some ev) :
    ev = (roundAt env s pc i st k).events ∧ i + k ≤ s.maxIter ∧
      ∀ j < k, (roundAt env s pc i st j).control = .next := by
  induction fuel generalizing i st k with
  | zero =>
    rw [loop_zero] at h
    split at h <;> simp at h
  | succ fuel ih =>
    by_cases hi : i ≤ s.maxIter
    · cases hc : (iteration env s pc i st).control with
      | next =>
        rw [loop_next env s pc fuel i st hi hc] at h
        cases k with
        | zero =>
          simp at h
          refine ⟨by rw [roundAt_zero, h], by simpa using hi, by simp⟩
        | succ k =>
          simp only [List.getElem?_cons_succ] at h
          obtain ⟨h1, h2, h3⟩ := ih (i + 1) _ k h
          refine ⟨by rw [roundAt_succ, h1], by push_cast; omega, ?_⟩
          intro j hj
          cases j with
          | zero => rw [roundAt_zero, hc]
          | succ j => rw [roundAt_succ]; exact h3 j (by omega)
      | stop =>
        rw [loop_stop env s pc fuel i st hi hc] at h
        cases k with
        | zero =>
          simp at h
          refine ⟨by rw [roundAt_zero, h], by simpa using hi, by simp⟩
        | succ k => simp at h
      | fatal =>
        rw [loop_fatal env s pc fuel i st hi hc] at h
        cases k with
        | zero =>
          simp at h
          refine ⟨by rw [roundAt_zero, h], by simpa using hi, by simp⟩
        | succ k => simp at h
    · rw [loop_exhausted env s pc _ i st hi] at h
      simp at h

/-- The state the loop ends in is the state after the iterations it ran. -/
theorem loop_state (env : Env) (s : Session) (pc : Bool) (fuel : Nat) (i : Int)
    (st : LoopState) :
    (loop env s pc fuel i st).state =
      stateAt env s pc i st (loop env s pc fuel i st).rounds.length := by
  induction fuel generalizing i st with
  | zero =>
    rw [loop_zero]
    split <;> rfl
  | succ fuel ih =>
    by_cases hi : i ≤ s.maxIter
    · cases hc : (iteration env s pc i st).control with
      | next =>
        rw [loop_next env s pc fuel i st hi hc]
        simp only [List.length_cons]
        rw [ih]
        rfl
      | stop => rw [loop_stop env s pc fuel i st hi hc]; rfl
      | fatal => rw [loop_fatal env s pc fuel i st hi hc]; rfl
    · rw [loop_exhausted env s pc _ i st hi]
      rfl

/-- An iteration that does not fall through to `i++` is the last one, and
decides how the loop ends. -/
theorem loop_halt_at (env : Env) (s : Session) (pc : Bool) (fuel : Nat) (i : Int)
    (st : LoopState) (k : Nat) (hk : k < (loop env s pc fuel i st).rounds.length)
    (hc : (roundAt env s pc i st k).control ≠ .next) :
    (loop env s pc fuel i st).rounds.length = k + 1 ∧
      (loop env s pc fuel i st).ending =
        (if (roundAt env s pc i st k).control = .stop then .left else .fatal) := by
  induction fuel generalizing i st k with
  | zero =>
    rw [loop_zero] at hk
    split at hk <;> simp at hk
  | succ fuel ih =>
    by_cases hi : i ≤ s.maxIter
    · cases hc' : (iteration env s pc i st).control with
      | next =>
        rw [loop_next env s pc fuel i st hi hc'] at hk ⊢
        cases k with
        | zero => rw [roundAt_zero] at hc; exact absurd hc' hc
        | succ k =>
          simp only [List.length_cons] at hk ⊢
          rw [roundAt_succ] at hc ⊢
          obtain ⟨h1, h2⟩ := ih (i + 1) _ k (by omega) hc
          exact ⟨by omega, h2⟩
      | stop =>
        rw [loop_stop env s pc fuel i st hi hc'] at hk ⊢
        simp only [List.length_singleton] at hk
        obtain rfl : k = 0 := by omega
        rw [roundAt_zero, hc']
        simp
      | fatal =>
        rw [loop_fatal env s pc fuel i st hi hc'] at hk ⊢
        simp only [List.length_singleton] at hk
        obtain rfl : k = 0 := by omega
        rw [roundAt_zero, hc']
        simp
    · rw [loop_exhausted env s pc _ i st hi] at hk
      simp at hk

/-- With fuel and an iteration allowed, the loop runs an iteration. -/
theorem loop_nonempty (env : Env) (s : Session) (pc : Bool) (fuel : Nat) (i : Int)
    (st : LoopState) (hi : i ≤ s.maxIter) :
    0 < (loop env s pc (fuel + 1) i st).rounds.length := by
  cases hc : (iteration env s pc i st).control with
  | next => rw [loop_next env s pc fuel i st hi hc]; simp
  | stop => rw [loop_stop env s pc fuel i st hi hc]; simp
  | fatal => rw [loop_fatal env s pc fuel i st hi hc]; simp

/-- After an iteration that falls through to `i++`, the next one runs when the
counter allows it. -/
theorem loop_next_at (env : Env) (s : Session) (pc : Bool) (fuel : Nat) (i : Int)
    (st : LoopState) (hfuel : (s.maxIter - i + 1).toNat ≤ fuel) (k : Nat)
    (hk : k < (loop env s pc fuel i st).rounds.length)
    (hc : (roundAt env s pc i st k).control = .next) (hi : i + k + 1 ≤ s.maxIter) :
    k + 1 < (loop env s pc fuel i st).rounds.length := by
  induction fuel generalizing i st k with
  | zero =>
    rw [loop_zero] at hk
    split at hk <;> simp at hk
  | succ fuel ih =>
    have hi' : i ≤ s.maxIter := by omega
    cases hc' : (iteration env s pc i st).control with
    | next =>
      rw [loop_next env s pc fuel i st hi' hc'] at hk ⊢
      simp only [List.length_cons] at hk ⊢
      cases k with
      | zero =>
        have hi1 : i + 1 ≤ s.maxIter := by simpa using hi
        obtain ⟨fuel', rfl⟩ : ∃ fuel', fuel = fuel' + 1 := ⟨fuel - 1, by omega⟩
        have := loop_nonempty env s pc fuel' (i + 1) (iteration env s pc i st).state hi1
        omega
      | succ k =>
        rw [roundAt_succ] at hc
        have := ih (i + 1) _ (by omega) k (by omega) hc (by push_cast at hi; omega)
        omega
    | stop =>
      rw [loop_stop env s pc fuel i st hi' hc'] at hk
      simp only [List.length_singleton] at hk
      obtain rfl : k = 0 := by omega
      rw [roundAt_zero, hc'] at hc
      exact absurd hc (by simp)
    | fatal =>
      rw [loop_fatal env s pc fuel i st hi' hc'] at hk
      simp only [List.length_singleton] at hk
      obtain rfl : k = 0 := by omega
      rw [roundAt_zero, hc'] at hc
      exact absurd hc (by simp)

/-- With enough fuel the loop ends by itself. -/
theorem loop_ending_ne_outOfFuel (env : Env) (s : Session) (pc : Bool) (fuel : Nat) (i : Int)
    (st : LoopState) (hfuel : (s.maxIter - i + 1).toNat ≤ fuel) :
    (loop env s pc fuel i st).ending ≠ .outOfFuel := by
  induction fuel generalizing i st with
  | zero =>
    have hi : ¬ i ≤ s.maxIter := by omega
    rw [loop_exhausted env s pc _ i st hi]
    simp
  | succ fuel ih =>
    by_cases hi : i ≤ s.maxIter
    · cases hc : (iteration env s pc i st).control with
      | next =>
        rw [loop_next env s pc fuel i st hi hc]
        exact ih (i + 1) _ (by omega)
      | stop => rw [loop_stop env s pc fuel i st hi hc]; simp
      | fatal => rw [loop_fatal env s pc fuel i st hi hc]; simp
    · rw [loop_exhausted env s pc _ i st hi]
      simp

/-- A loop that ends by `log.Fatalf` ends in its last iteration. -/
theorem loop_fatal_last (env : Env) (s : Session) (pc : Bool) (fuel : Nat) (i : Int)
    (st : LoopState) (h : (loop env s pc fuel i st).ending = .fatal) :
    ∃ k, (loop env s pc fuel i st).rounds.length = k + 1 ∧
      (roundAt env s pc i st k).control = .fatal := by
  induction fuel generalizing i st with
  | zero =>
    rw [loop_zero] at h
    split at h <;> simp at h
  | succ fuel ih =>
    by_cases hi : i ≤ s.maxIter
    · cases hc : (iteration env s pc i st).control with
      | next =>
        rw [loop_next env s pc fuel i st hi hc] at h ⊢
        obtain ⟨k, h1, h2⟩ := ih (i + 1) _ h
        exact ⟨k + 1, by simp [h1], by rw [roundAt_succ]; exact h2⟩
      | stop => rw [loop_stop env s pc fuel i st hi hc] at h; simp at h
      | fatal =>
        rw [loop_fatal env s pc fuel i st hi hc]
        exact ⟨0, by simp, by rw [roundAt_zero]; exact hc⟩
    · rw [loop_exhausted env s pc _ i st hi] at h
      simp at h

/-! ## Properties of `Run` -/

theorem Run_aborted (env : Env) (s : Session) (store : Store) (hs : s.subcommand = .run)
    (hm : store.approved = false) :
    Run env s store = ⟨[.log .planNotApproved], [], [], store, some 1⟩ := by
  simp [Run, hs, hm]

theorem Run_entered (env : Env) (s : Session) (store : Store)
    (h : ¬ (s.subcommand = .run ∧ store.approved = false)) :
    Run env s store =
      match (entered env s store).ending with
      | .left =>
        ⟨enteredStartup env s store, (entered env s store).rounds,
          [Event.removePrompt (removalOk env (entered env s store).state.store)] ++
            (if removalOk env (entered env s store).state.store then []
              else [Event.log .removePromptWarning]) ++ [Event.log .finished],
          if removalOk env (entered env s store).state.store then
            { (entered env s store).state.store with prompt := none }
          else (entered env s store).state.store, some 0⟩
      | .fatal =>
        ⟨enteredStartup env s store, (entered env s store).rounds, [],
          (entered env s store).state.store, some 1⟩
      | .outOfFuel =>
        ⟨enteredStartup env s store, (entered env s store).rounds, [],
          (entered env s store).state.store, none⟩ := by
  have hg : (decide (s.subcommand = .run) &&
      !(if (decide (s.subcommand = .plan) && store.approved) = true then false
        else store.approved)) = false := by
    rcases hsub : s.subcommand with _ | _ <;> cases hap : store.approved <;>
      simp_all
  unfold Run
  simp only [hg]
  rfl

theorem entered_ending (env : Env) (s : Session) (store : Store) :
    (entered env s store).ending ≠ .outOfFuel := by
  apply loop_ending_ne_outOfFuel
  omega

theorem enteredComplete_plan (s : Session) (store : Store) (hs : s.subcommand = .plan) :
    enteredComplete s store = false := by
  cases h : store.approved <;> simp [enteredComplete, hs, h]

theorem enteredComplete_run (s : Session) (store : Store) (hs : s.subcommand = .run) :
    enteredComplete s store = store.approved := by
  simp [enteredComplete, hs]

theorem not_mem_record (env : Env) (s : Session) (i : Int) (st : LoopState) (e : Event)
    (h : e.recording = false) : e ∉ (record env s i st).events := by
  intro he
  rw [record_events_recording env s i st e he] at h
  exact absurd h (by simp)

/-- An iteration is its record followed by one of the endings. -/
theorem iteration_ending (env : Env) (s : Session) (pc : Bool) (i : Int) (st : LoopState) :
    ∃ c, Ending env s pc i (runAgent (env.agent i) s.verbose).output
        ⟨[], st.stdin, (record env s i st).store⟩ c ∧
      iteration env s pc i st = ⟨(record env s i st).events ++ c.events, c.state, c.control⟩ := by
  refine ⟨conclude env s pc i (runAgent (env.agent i) s.verbose).output
    ⟨[], st.stdin, (record env s i st).store⟩, conclude_ending _ _ _ _ _ _, ?_⟩
  unfold iteration
  simp only [record_userFeedback, record_output]

theorem Run_rounds (env : Env) (s : Session) (store : Store)
    (h : ¬ (s.subcommand = .run ∧ store.approved = false)) :
    (Run env s store).rounds = (entered env s store).rounds := by
  rw [Run_entered env s store h]
  cases (entered env s store).ending <;> rfl

theorem Run_startup (env : Env) (s : Session) (store : Store)
    (h : ¬ (s.subcommand = .run ∧ store.approved = false)) :
    (Run env s store).startup = enteredStartup env s store := by
  rw [Run_entered env s store h]
  cases (entered env s store).ending <;> rfl

theorem Run_exitCode (env : Env) (s : Session) (store : Store)
    (h : ¬ (s.subcommand = .run ∧ store.approved = false)) :
    (Run env s store).exitCode =
      if (entered env s store).ending = .left then some 0 else some 1 := by
  rw [Run_entered env s store h]
  have := entered_ending env s store
  cases hE : (entered env s store).ending <;> simp_all

theorem roundOf_eq (env : Env) (s : Session) (store : Store) (k : Nat) :
    roundOf env s store k =
      iteration env s (enteredComplete s store) (k + 1)
        (stateAt env s (enteredComplete s store) 1 ⟨[], env.stdin, enteredStore env s store⟩ k) := by
  unfold roundOf roundAt
  rw [add_comm]

/-- Every iteration of a session is the iteration of its place. -/
theorem Run_rounds_getElem (env : Env) (s : Session) (store : Store) (k : Nat)
    (r : List Event) (hr : (Run env s store).rounds[k]? = some r) :
    ¬ (s.subcommand = .run ∧ store.approved = false) ∧ r = (roundOf env s store k).events ∧
      (k : Int) + 1 ≤ s.maxIter ∧ (∀ j < k, (roundOf env s store j).control = .next) ∧
      k < (entered env s store).rounds.length := by
  have hg : ¬ (s.subcommand = .run ∧ store.approved = false) := by
    intro hg
    rw [Run_aborted env s store hg.1 hg.2] at hr
    simp at hr
  rw [Run_rounds env s store hg] at hr
  obtain ⟨h1, h2, h3⟩ := loop_rounds_getElem _ _ _ _ _ _ _ _ hr
  refine ⟨hg, h1, by omega, h3, ?_⟩
  by_contra hlt
  rw [List.getElem?_eq_none (by simpa [entered] using hlt)] at hr
  simp at hr

theorem iteration_fatal_iff (env : Env) (s : Session) (pc : Bool) (i : Int) (st : LoopState) :
    Event.writeApproved false ∈ (iteration env s pc i st).events ↔
      (iteration env s pc i st).control = .fatal := by
  obtain ⟨c, hc, heq⟩ := iteration_ending env s pc i st
  have h := not_mem_record env s i st (.writeApproved false) rfl
  rw [heq]
  cases hc <;> simp [h]

theorem iteration_removePrompt (env : Env) (s : Session) (pc : Bool) (i : Int) (st : LoopState)
    (ok : Bool) : Event.removePrompt ok ∉ (iteration env s pc i st).events := by
  obtain ⟨c, hc, heq⟩ := iteration_ending env s pc i st
  have h := not_mem_record env s i st (.removePrompt ok) rfl
  rw [heq]
  cases hc <;> simp [h]

theorem iteration_removeApproved (env : Env) (s : Session) (pc : Bool) (i : Int)
    (st : LoopState) (ok : Bool) :
    Event.removeApproved ok ∉ (iteration env s pc i st).events := by
  obtain ⟨c, hc, heq⟩ := iteration_ending env s pc i st
  have h := not_mem_record env s i st (.removeApproved ok) rfl
  rw [heq]
  cases hc <;> simp [h]

/-- An iteration leaves the marker as it was, unless it attempts to write it. -/
theorem iteration_approved (env : Env) (s : Session) (pc : Bool) (i : Int) (st : LoopState)
    (h : (iteration env s pc i st).state.store.approved = true) :
    st.store.approved = true ∨ ∃ ok, Event.writeApproved ok ∈ (iteration env s pc i st).events := by
  obtain ⟨c, hc, heq⟩ := iteration_ending env s pc i st
  rw [heq] at h ⊢
  cases hc with
  | done _ => left; simpa [record_store_approved] using h
  | last _ _ => left; simpa [record_store_approved] using h
  | eof _ _ _ => left; simpa [record_store_approved] using h
  | approve _ _ _ _ _ _ _ _ _ => right; exact ⟨true, by simp⟩
  | fatal _ _ _ _ _ _ _ _ _ => right; exact ⟨false, by simp⟩
  | feedback _ _ _ _ _ _ => left; simpa [record_store_approved] using h

/-- An iteration that writes the marker ends the loop by `break`. -/
theorem iteration_writeApproved (env : Env) (s : Session) (pc : Bool) (i : Int)
    (st : LoopState) (h : Event.writeApproved true ∈ (iteration env s pc i st).events) :
    (iteration env s pc i st).control = .stop := by
  obtain ⟨c, hc, heq⟩ := iteration_ending env s pc i st
  have h' := not_mem_record env s i st (.writeApproved true) rfl
  rw [heq] at h ⊢
  cases hc <;> simp [h'] at h ⊢

/-- Every list of events of the loop is that of an iteration that ran. -/
theorem mem_loop_rounds (env : Env) (s : Session) (pc : Bool) (fuel : Nat) (i : Int)
    (st : LoopState) (ev : List Event) (h : ev ∈ (loop env s pc fuel i st).rounds) :
    ∃ k, k < (loop env s pc fuel i st).rounds.length ∧ ev = (roundAt env s pc i st k).events := by
  obtain ⟨k, hk, rfl⟩ := List.mem_iff_getElem.1 h
  exact ⟨k, hk, (loop_rounds_getElem env s pc fuel i st k _ (List.getElem?_eq_getElem hk)).1⟩

theorem roundAt_mem_loop_rounds (env : Env) (s : Session) (pc : Bool) (fuel : Nat) (i : Int)
    (st : LoopState) (k : Nat) (hk : k < (loop env s pc fuel i st).rounds.length) :
    (roundAt env s pc i st k).events ∈ (loop env s pc fuel i st).rounds := by
  have h := (loop_rounds_getElem env s pc fuel i st k _ (List.getElem?_eq_getElem hk)).1
  rw [← h]
  exact List.getElem_mem hk

/-- The loop ends by `log.Fatalf` exactly when a write of the marker fails. -/
theorem loop_fatal_iff (env : Env) (s : Session) (pc : Bool) (fuel : Nat) (i : Int)
    (st : LoopState) :
    Event.writeApproved false ∈ (loop env s pc fuel i st).rounds.flatten ↔
      (loop env s pc fuel i st).ending = .fatal := by
  constructor
  · intro h
    obtain ⟨ev, hev, hmem⟩ := List.mem_flatten.1 h
    obtain ⟨k, hk, rfl⟩ := mem_loop_rounds env s pc fuel i st ev hev
    have hc : (roundAt env s pc i st k).control = .fatal :=
      (iteration_fatal_iff env s pc _ _).1 hmem
    have := (loop_halt_at env s pc fuel i st k hk (by rw [hc]; simp)).2
    rw [this, hc]
    simp
  · intro h
    obtain ⟨k, hk, hc⟩ := loop_fatal_last env s pc fuel i st h
    exact List.mem_flatten.2 ⟨_, roundAt_mem_loop_rounds env s pc fuel i st k (by omega),
      (iteration_fatal_iff env s pc _ _).2 hc⟩

theorem loop_removePrompt (env : Env) (s : Session) (pc : Bool) (fuel : Nat) (i : Int)
    (st : LoopState) (ok : Bool) :
    Event.removePrompt ok ∉ (loop env s pc fuel i st).rounds.flatten := by
  intro h
  obtain ⟨ev, hev, hmem⟩ := List.mem_flatten.1 h
  obtain ⟨k, -, rfl⟩ := mem_loop_rounds env s pc fuel i st ev hev
  exact iteration_removePrompt env s pc _ _ ok hmem

theorem enteredStartup_mem (env : Env) (s : Session) (store : Store) (e : Event)
    (h : e ∈ enteredStartup env s store) :
    e = .log .existingPlan ∨ e = .removeApproved env.removeApprovedOk ∨
      e = .log .removeApprovalWarning := by
  unfold enteredStartup at h
  split at h
  · simp only [List.mem_append, List.mem_cons, List.mem_singleton, List.not_mem_nil,
      or_false] at h
    rcases h with (h | h) | h
    · exact Or.inl h
    · exact Or.inr (Or.inl h)
    · split at h
      · simp at h
      · exact Or.inr (Or.inr (by simpa using h))
  · simp at h

theorem entered_state (env : Env) (s : Session) (store : Store) :
    (entered env s store).state =
      stateAt env s (enteredComplete s store) 1 ⟨[], env.stdin, enteredStore env s store⟩
        (entered env s store).rounds.length :=
  loop_state _ _ _ _ _ _

theorem Run_store_approved (env : Env) (s : Session) (store : Store)
    (h : ¬ (s.subcommand = .run ∧ store.approved = false)) :
    (Run env s store).store.approved = (entered env s store).state.store.approved := by
  rw [Run_entered env s store h]
  cases (entered env s store).ending
  · cases removalOk env (entered env s store).state.store <;> rfl
  · rfl
  · rfl

/-- In a session that entered the loop, an iteration that does not fall through
to `i++` is the last one: `break` gives status 0, `log.Fatalf` status 1. -/
theorem Run_halt_at (env : Env) (s : Session) (store : Store)
    (h : ¬ (s.subcommand = .run ∧ store.approved = false)) (k : Nat)
    (hk : k < (entered env s store).rounds.length)
    (hc : (roundOf env s store k).control ≠ .next) :
    (Run env s store).rounds.length = k + 1 ∧ (entered env s store).rounds.length = k + 1 ∧
      (Run env s store).exitCode =
        (if (roundOf env s store k).control = .stop then some 0 else some 1) ∧
      (entered env s store).state = (roundOf env s store k).state := by
  obtain ⟨h1, h2⟩ := loop_halt_at env s (enteredComplete s store) s.maxIter.toNat 1
    ⟨[], env.stdin, enteredStore env s store⟩ k hk hc
  have h1' : (entered env s store).rounds.length = k + 1 := h1
  have h2' : (entered env s store).ending =
      if (roundOf env s store k).control = .stop then .left else .fatal := h2
  refine ⟨by rw [Run_rounds env s store h]; exact h1', h1', ?_, ?_⟩
  · rw [Run_exitCode env s store h, h2']
    cases hc' : (roundOf env s store k).control <;> simp_all
  · rw [entered_state, h1', stateAt_succ]
    rfl

/-- In a session that entered the loop, an iteration that falls through to
`i++` is followed by the next when the counter allows it. -/
theorem Run_next_at (env : Env) (s : Session) (store : Store) (k : Nat)
    (hk : k < (entered env s store).rounds.length)
    (hc : (roundOf env s store k).control = .next) (hi : (k : Int) + 2 ≤ s.maxIter) :
    k + 1 < (entered env s store).rounds.length :=
  loop_next_at env s (enteredComplete s store) s.maxIter.toNat 1
    ⟨[], env.stdin, enteredStore env s store⟩ (by omega) k hk hc (by omega)

theorem entered_getElem (env : Env) (s : Session) (store : Store) (k : Nat)
    (hk : k < (entered env s store).rounds.length) :
    (entered env s store).rounds[k]? = some (roundOf env s store k).events := by
  rw [List.getElem?_eq_getElem hk]
  congr 1
  exact (loop_rounds_getElem _ _ _ _ _ _ k _ (List.getElem?_eq_getElem hk)).1

theorem mem_trace_of_round (env : Env) (s : Session) (store : Store) (k : Nat) (r : List Event)
    (hr : (Run env s store).rounds[k]? = some r) (e : Event) (he : e ∈ r) :
    e ∈ (Run env s store).trace := by
  unfold Outcome.trace
  rw [List.mem_append, List.mem_append]
  exact Or.inl (Or.inr (List.mem_flatten.2 ⟨r, List.getElem?_mem hr, he⟩))

/-- The session ends with status 1 exactly when `run` is aborted for want of
the marker or a write of the marker fails. -/
theorem Run_exit_one_iff (env : Env) (s : Session) (store : Store) :
    (Run env s store).exitCode = some 1 ↔
      (s.subcommand = .run ∧ store.approved = false) ∨
        Event.writeApproved false ∈ (Run env s store).trace := by
  by_cases hg : s.subcommand = .run ∧ store.approved = false
  · rw [Run_aborted env s store hg.1 hg.2]
    simp [Outcome.trace, hg]
  · have hout := entered_ending env s store
    have hfat : Event.writeApproved false ∈ (entered env s store).rounds.flatten ↔
        (entered env s store).ending = .fatal :=
      loop_fatal_iff env s (enteredComplete s store) s.maxIter.toNat 1
        ⟨[], env.stdin, enteredStore env s store⟩
    have hw : Event.writeApproved false ∉ enteredStartup env s store := by
      intro hmem
      rcases enteredStartup_mem env s store _ hmem with h | h | h <;> cases h
    rw [Run_entered env s store hg]
    cases hE : (entered env s store).ending with
    | outOfFuel => exact absurd hE hout
    | fatal =>
      have hmem := hfat.2 hE
      simp [Outcome.trace, hg, hw, hmem]
    | left =>
      have hmem : Event.writeApproved false ∉ (entered env s store).rounds.flatten := by
        intro h
        rw [hfat.1 h] at hE
        cases hE
      cases hok : removalOk env (entered env s store).state.store <;>
        simp [Outcome.trace, hg, hw, hmem]

/-- The marker is present after some iterations only if it was present before
them or one of them attempted to write it. -/
theorem stateAt_approved (env : Env) (s : Session) (pc : Bool) (i : Int) (st : LoopState)
    (n : Nat) (h : (stateAt env s pc i st n).store.approved = true) :
    st.store.approved = true ∨
      ∃ j < n, ∃ ok, Event.writeApproved ok ∈ (roundAt env s pc i st j).events := by
  induction n with
  | zero => exact Or.inl h
  | succ n ih =>
    rw [stateAt_succ] at h
    unfold roundAt at h
    rcases iteration_approved _ _ _ _ _ h with h | ⟨ok, h⟩
    · rcases ih h with h' | ⟨j, hj, h'⟩
      · exact Or.inl h'
      · exact Or.inr ⟨j, by omega, h'⟩
    · exact Or.inr ⟨n, by omega, ok, h⟩

/-- A session that entered the loop has the marker at its end only if it had it
when it entered the loop or attempted to write it. -/
theorem Run_approved (env : Env) (s : Session) (store : Store)
    (hg : ¬ (s.subcommand = .run ∧ store.approved = false))
    (h : (Run env s store).store.approved = true) :
    (enteredStore env s store).approved = true ∨
      ∃ ok, Event.writeApproved ok ∈ (Run env s store).trace := by
  rw [Run_store_approved env s store hg, entered_state] at h
  rcases stateAt_approved _ _ _ _ _ _ h with h' | ⟨j, hj, ok, h'⟩
  · exact Or.inl h'
  · right
    refine ⟨ok, ?_⟩
    have hr : (Run env s store).rounds[j]? = some (roundOf env s store j).events := by
      rw [Run_rounds env s store hg]
      exact entered_getElem env s store j hj
    exact mem_trace_of_round env s store j _ hr _ h'

theorem ask_mem_iteration (env : Env) (s : Session) (pc : Bool) (i : Int) (st : LoopState)
    (q : Question) (h : Event.ask q ∈ (iteration env s pc i st).events) : q = question s pc := by
  obtain ⟨c, hc, heq⟩ := iteration_ending env s pc i st
  have h' := not_mem_record env s i st (.ask q) rfl
  rw [heq] at h
  cases hc <;> simp [h'] at h <;> exact h

/-- An iteration that does not fall through to `i++` met DONE or read an
approval in a `plan` session. -/
theorem iteration_halts (env : Env) (s : Session) (pc : Bool) (i : Int) (st : LoopState)
    (h : (iteration env s pc i st).control ≠ .next) :
    isDone (runAgent (env.agent i) s.verbose).output = true ∨
      ∃ line, Event.scan (some line) ∈ (iteration env s pc i st).events ∧
        s.subcommand = .plan ∧ isApprove line = true := by
  obtain ⟨c, hc, heq⟩ := iteration_ending env s pc i st
  rw [heq] at h ⊢
  cases hc with
  | done h' => exact Or.inl h'
  | last h' hi => simp at h
  | eof h' hi hin => simp at h
  | approve input rest h' hi hin hs hpc ha hw => exact Or.inr ⟨input, by simp, hs, ha⟩
  | fatal input rest h' hi hin hs hpc ha hw => exact Or.inr ⟨input, by simp, hs, ha⟩
  | feedback input rest h' hi hin hna => simp at h

/-- An iteration reads standard input exactly when it did not meet DONE and is
not the last allowed. -/
theorem scan_mem_iteration (env : Env) (s : Session) (pc : Bool) (i : Int) (st : LoopState) :
    (∃ line, Event.scan line ∈ (iteration env s pc i st).events) ↔
      isDone (runAgent (env.agent i) s.verbose).output = false ∧ i < s.maxIter := by
  obtain ⟨c, hc, heq⟩ := iteration_ending env s pc i st
  have h' : ∀ line, Event.scan line ∉ (record env s i st).events :=
    fun line => not_mem_record env s i st (.scan line) rfl
  rw [heq]
  cases hc with
  | done h => simp [h', h]
  | last h hi => simp only [List.mem_append, h', false_or]; split <;> simp [hi]
  | eof h hi hin => simp [h', h, hi]
  | approve input rest h hi hin hs hpc ha hw => simp [h', h, hi]
  | fatal input rest h hi hin hs hpc ha hw => simp [h', h, hi]
  | feedback input rest h hi hin hna => simp [h', h, hi]

/-- An iteration logs the notice of the last iteration exactly when it did not
meet DONE and is the last allowed, and then once. -/
theorem notice_count_iteration (env : Env) (s : Session) (pc : Bool) (i : Int) (st : LoopState) :
    (iteration env s pc i st).events.count (.log .maxIterations) =
      if isDone (runAgent (env.agent i) s.verbose).output = false ∧ i = s.maxIter then 1 else 0 := by
  obtain ⟨c, hc, heq⟩ := iteration_ending env s pc i st
  have h' : (record env s i st).events.count (.log .maxIterations) = 0 :=
    List.count_eq_zero.2 (not_mem_record env s i st _ rfl)
  rw [heq]
  simp only [List.count_append, h', zero_add]
  cases hc with
  | done h => simp [h]
  | last h hi =>
    by_cases he : i = s.maxIter
    · subst he
      simp [h]
    · simp [h, he]
  | eof h hi hin =>
    have : i ≠ s.maxIter := by omega
    simp [h, this, List.count_cons]
  | approve input rest h hi hin hs hpc ha hw =>
    have : i ≠ s.maxIter := by omega
    simp [h, this, List.count_cons]
  | fatal input rest h hi hin hs hpc ha hw =>
    have : i ≠ s.maxIter := by omega
    simp [h, this, List.count_cons]
  | feedback input rest h hi hin hna =>
    have : i ≠ s.maxIter := by omega
    simp [h, this, List.count_cons]

/-- When no iteration meets DONE and every iteration falls through to `i++`,
the loop logs the notice of the last iteration once. -/
theorem loop_notice_count (env : Env) (s : Session) (pc : Bool) (fuel : Nat) (i : Int)
    (st : LoopState) (hfuel : (s.maxIter - i + 1).toNat ≤ fuel) (hi : i ≤ s.maxIter)
    (hdone : ∀ j, i ≤ j → j ≤ s.maxIter → isDone (runAgent (env.agent j) s.verbose).output = false)
    (hnext : ∀ j : Nat, i + j ≤ s.maxIter → (roundAt env s pc i st j).control = .next) :
    (loop env s pc fuel i st).rounds.flatten.count (.log .maxIterations) = 1 := by
  induction fuel generalizing i st with
  | zero => omega
  | succ fuel ih =>
    have hc : (iteration env s pc i st).control = .next := by
      have := hnext 0 (by simpa using hi)
      rwa [roundAt_zero] at this
    rw [loop_next env s pc fuel i st hi hc]
    simp only [List.flatten_cons, List.count_append]
    rw [notice_count_iteration, hdone i (le_refl _) hi]
    by_cases he : i = s.maxIter
    · rw [loop_exhausted env s pc fuel (i + 1) _ (by omega)]
      simp [he]
    · rw [ih (i + 1) _ (by omega) (by omega) (fun j hj hj' => hdone j (by omega) hj')
        (fun j hj => by
          have := hnext (j + 1) (by push_cast; omega)
          rwa [roundAt_succ] at this)]
      simp [he]

/-- An iteration that did not meet DONE and is not the last allowed prints its
question. -/
theorem ask_mem_iteration_of (env : Env) (s : Session) (pc : Bool) (i : Int) (st : LoopState)
    (h : isDone (runAgent (env.agent i) s.verbose).output = false) (hi : i < s.maxIter) :
    Event.ask (question s pc) ∈ (iteration env s pc i st).events := by
  obtain ⟨c, hc, heq⟩ := iteration_ending env s pc i st
  rw [heq]
  cases hc with
  | done h' => rw [h] at h'; cases h'
  | last h' hi' => exact absurd hi hi'
  | eof h' hi hin => simp
  | approve input rest h' hi hin hs hpc ha hw => simp
  | fatal input rest h' hi hin hs hpc ha hw => simp
  | feedback input rest h' hi hin hna => simp

/-- The prompt an iteration writes is assembled from the pending feedback. -/
theorem writePrompt_mem_iteration (env : Env) (s : Session) (pc : Bool) (i : Int)
    (st : LoopState) (p : Str) (ok : Bool) :
    Event.writePrompt p ok ∈ (iteration env s pc i st).events ↔
      p = assemblePrompt env.systemPrompt (phase s.subcommand) s.goal st.userFeedback (env.disk i) ∧
        ok = env.writePromptOk i := by
  obtain ⟨c, hc, heq⟩ := iteration_ending env s pc i st
  rw [heq, ← writePrompt_mem_record env s i st p ok]
  cases hc <;> simp

/-- What an iteration reads becomes the pending feedback of the next. -/
theorem iteration_feedback (env : Env) (s : Session) (pc : Bool) (i : Int) (st : LoopState)
    (line : Option Str) (h : Event.scan line ∈ (iteration env s pc i st).events)
    (hc : (iteration env s pc i st).control = .next) :
    (iteration env s pc i st).state.userFeedback = line.getD [] ∧
      ∀ line', Event.scan line' ∈ (iteration env s pc i st).events → line' = line := by
  obtain ⟨c, hc', heq⟩ := iteration_ending env s pc i st
  have h' : ∀ l, Event.scan l ∉ (record env s i st).events :=
    fun l => not_mem_record env s i st (.scan l) rfl
  rw [heq] at h hc ⊢
  cases hc' with
  | done h1 => simp at hc
  | last h1 hi => simp only [List.mem_append, h', false_or] at h; split at h <;> simp at h
  | eof h1 hi hin =>
    simp [h'] at h
    subst h
    simp [h']
  | approve input rest h1 hi hin hs hpc ha hw => simp at hc
  | fatal input rest h1 hi hin hs hpc ha hw => simp at hc
  | feedback input rest h1 hi hin hna =>
    simp [h'] at h
    subst h
    simp [h']

/-- An iteration that reads a line which is no approval falls through to
`i++`, and is not the last allowed. -/
theorem iteration_of_feedback (env : Env) (s : Session) (pc : Bool) (i : Int) (st : LoopState)
    (line : Str) (h : Event.scan (some line) ∈ (iteration env s pc i st).events)
    (hna : isApprove line = false) :
    (iteration env s pc i st).control = .next ∧ i < s.maxIter := by
  obtain ⟨c, hc', heq⟩ := iteration_ending env s pc i st
  have h' := not_mem_record env s i st (.scan (some line)) rfl
  rw [heq] at h ⊢
  cases hc' with
  | done h1 => simp [h'] at h
  | last h1 hi => simp only [List.mem_append, h', false_or] at h; split at h <;> simp at h
  | eof h1 hi hin => simp [h'] at h
  | approve input rest h1 hi hin hs hpc ha hw =>
    simp [h'] at h
    subst h
    rw [ha] at hna
    cases hna
  | fatal input rest h1 hi hin hs hpc ha hw =>
    simp [h'] at h
    subst h
    rw [ha] at hna
    cases hna
  | feedback input rest h1 hi hin hna' => exact ⟨rfl, hi⟩

/-- The pending feedback, when not empty, stands verbatim in the prompt under
its heading; the empty feedback leaves no section. -/
theorem feedback_in_prompt (systemPrompt : Str) (sub : Subcommand) (goal userFeedback : Str)
    (d : Disk) :
    ∃ front back, assemblePrompt systemPrompt (phase sub) goal userFeedback d =
        front ++ userFeedback ++ back ∧
      (userFeedback ≠ [] → ∃ front', front = front' ++ lit "# USER FEEDBACK / ANSWERS\n") := by
  rw [assemblePrompt_eq]
  by_cases hf : userFeedback = []
  · exact ⟨promptSpec systemPrompt sub goal userFeedback d, [], by simp [hf],
      fun h => absurd hf h⟩
  · simp only [promptSpec, sections, feedbackSection]
    refine ⟨systemSection systemPrompt ++ phaseSection sub ++ goalSection goal ++
        lit "# USER FEEDBACK / ANSWERS\n",
      lit "\n\n" ++ (workspaceSection d.entries ++ (prdSection d ++ (qaSection d ++
        ([optionalSection (lit "## Progress Log:\n") d.progress,
          optionalSection (lit "## Guardrails (Lessons Learned):\n") d.guardrails,
          optionalSection (lit "## Error Notes:\n") d.errors].filterMap id).flatten))),
      ?_, fun _ => ⟨_, rfl⟩⟩
    simp only [hf, if_false, List.filterMap_cons, id, List.flatten_cons, List.append_assoc]

/-- An iteration that falls through to `i++` did not meet DONE. -/
theorem iteration_next_not_done (env : Env) (s : Session) (pc : Bool) (i : Int)
    (st : LoopState) (h : (iteration env s pc i st).control = .next) :
    isDone (runAgent (env.agent i) s.verbose).output = false := by
  obtain ⟨c, hc, heq⟩ := iteration_ending env s pc i st
  rw [heq] at h
  cases hc with
  | done h' => simp at h
  | last h' hi => exact h'
  | eof h' hi hin => exact h'
  | approve input rest h' hi hin hs hpc ha hw => exact h'
  | fatal input rest h' hi hin hs hpc ha hw => exact h'
  | feedback input rest h' hi hin hna => exact h'

/-- The state in which an iteration of a session starts is the state the
iteration before it left. -/
theorem roundOf_succ (env : Env) (s : Session) (store : Store) (k : Nat) :
    roundOf env s store (k + 1) =
      iteration env s (enteredComplete s store) (k + 2) (roundOf env s store k).state := by
  rw [roundOf_eq, stateAt_succ]
  have h : ((k + 1 : Nat) : Int) + 1 = (k : Int) + 2 := by push_cast; ring
  rw [h]
  rfl

theorem lineRead_append (l1 l2 : List Event) (h : ∀ line, Event.scan line ∉ l1) :
    Spec.lineRead (l1 ++ l2) = Spec.lineRead l2 := by
  induction l1 with
  | nil => rfl
  | cons e t ih =>
    have ht : ∀ line, Event.scan line ∉ t := fun line hm => h line (List.mem_cons_of_mem _ hm)
    cases e with
    | scan line => exact absurd (List.mem_cons_self _ _) (h line)
    | _ => exact ih ht

/-- An iteration after which the loop goes on leaves as pending feedback the
line it read. -/
theorem lineRead_iteration (env : Env) (s : Session) (pc : Bool) (i : Int) (st : LoopState)
    (h : (iteration env s pc i st).control = .next) :
    Spec.lineRead (iteration env s pc i st).events =
      (iteration env s pc i st).state.userFeedback := by
  obtain ⟨c, hc, heq⟩ := iteration_ending env s pc i st
  rw [heq] at h ⊢
  simp only
  rw [lineRead_append _ _ (fun line => not_mem_record env s i st (.scan line) rfl)]
  cases hc with
  | done _ => cases h
  | last _ _ => split <;> rfl
  | eof _ _ _ => rfl
  | approve _ _ _ _ _ _ _ _ _ => cases h
  | fatal _ _ _ _ _ _ _ _ _ => cases h
  | feedback _ _ _ _ _ _ => rfl

/-- The pending feedback of the state in which an iteration starts is the one
read off the events of the session. -/
theorem pendingFeedback_eq (env : Env) (s : Session) (store : Store) (k : Nat) (r : List Event)
    (hr : (Run env s store).rounds[k]? = some r) :
    (stateAt env s (enteredComplete s store) 1
      ⟨[], env.stdin, enteredStore env s store⟩ k).userFeedback =
      Spec.pendingFeedback (Run env s store).rounds k := by
  cases k with
  | zero => rfl
  | succ k =>
    obtain ⟨hg, -, -, hnext, hlen⟩ := Run_rounds_getElem env s store (k + 1) r hr
    have hk : (Run env s store).rounds[k]? = some (roundOf env s store k).events := by
      rw [Run_rounds env s store hg]
      exact entered_getElem env s store k (by omega)
    rw [stateAt_succ]
    show (roundOf env s store k).state.userFeedback = Spec.lineRead _
    rw [List.getD_eq_getElem?_getD, hk, Option.getD_some, roundOf_eq]
    have hc := hnext k (by omega)
    rw [roundOf_eq] at hc
    exact (lineRead_iteration _ _ _ _ _ hc).symm

/-! ## The claims -/

/-- C5: `run` started while the approval marker is absent exits with status 1
before any iteration: the only event of the session is the log line
"plan not approved", so the agent is not invoked, no prompt is written, no
raw-output log is written and nothing is appended to the activity log; the
files the session owns are left as they were. -/
theorem run_without_approval_aborts (env : Env) (s : Session) (store : Store)
    (hs : s.subcommand = .run) (hm : store.approved = false) :
    (Run env s store).exitCode = some 1 ∧ (Run env s store).rounds = [] ∧
      (Run env s store).trace = [.log .planNotApproved] ∧ (Run env s store).store = store := by
  rw [Run_aborted env s store hs hm]
  simp [Outcome.trace]

theorem run_without_approval_aborts_witness :
    (Run (sampleEnv neverDone []) ⟨.run, lit "ship it", 5, true⟩ ⟨false, none⟩).exitCode = some 1 ∧
      (Run (sampleEnv neverDone []) ⟨.run, lit "ship it", 5, true⟩ ⟨false, none⟩).rounds = [] ∧
      (Run (sampleEnv neverDone []) ⟨.run, lit "ship it", 5, true⟩ ⟨false, none⟩).trace =
        [.log .planNotApproved] ∧
      (Run (sampleEnv neverDone []) ⟨.run, lit "ship it", 5, true⟩ ⟨false, none⟩).store =
        ⟨false, none⟩ :=
  run_without_approval_aborts (sampleEnv neverDone []) ⟨.run, lit "ship it", 5, true⟩
    ⟨false, none⟩ rfl rfl

/-- C1: in every session, if iteration `k + 1` runs and the output of its agent,
upper-cased, contains `DONE`, the loop stops there: the session has exactly
`k + 1` iterations and returns with status 0, and iteration `k + 1` prints no
question, reads no line, and neither writes nor removes the approval marker. -/
theorem done_stops_loop (env : Env) (s : Session) (store : Store) (k : Nat) (r : List Event)
    (hr : (Run env s store).rounds[k]? = some r)
    (hdone : Contains (ToUpper (runAgent (env.agent (k + 1)) s.verbose).output) (lit "DONE") =
      true) :
    (Run env s store).rounds.length = k + 1 ∧ (Run env s store).exitCode = some 0 ∧
      (∀ q, Event.ask q ∉ r) ∧ (∀ line, Event.scan line ∉ r) ∧
      (∀ ok, Event.writeApproved ok ∉ r) ∧ (∀ ok, Event.removeApproved ok ∉ r) := by
  obtain ⟨hg, hev, -, -, hk⟩ := Run_rounds_getElem env s store k r hr
  have hit : roundOf env s store k = ⟨(record env s (k + 1) (stateAt env s (enteredComplete s store)
      1 ⟨[], env.stdin, enteredStore env s store⟩ k)).events ++ [.log .agentDone],
      ⟨[], (stateAt env s (enteredComplete s store) 1
        ⟨[], env.stdin, enteredStore env s store⟩ k).stdin,
        (record env s (k + 1) (stateAt env s (enteredComplete s store)
          1 ⟨[], env.stdin, enteredStore env s store⟩ k)).store⟩, .stop⟩ := by
    rw [roundOf_eq]
    unfold iteration
    simp only [record_userFeedback, record_output]
    rw [conclude_done _ _ _ _ _ _ hdone]
  have hc : (roundOf env s store k).control ≠ .next := by rw [hit]; simp
  obtain ⟨hlen, hend⟩ := loop_halt_at _ _ _ _ _ _ k hk hc
  have hend' : (entered env s store).ending = .left := by
    have := hend
    rw [show roundAt env s (enteredComplete s store) 1 ⟨[], env.stdin, enteredStore env s store⟩ k
      = roundOf env s store k from rfl, hit] at this
    simpa [entered] using this
  refine ⟨by rw [Run_rounds env s store hg]; exact hlen, by
    rw [Run_exitCode env s store hg, hend']; rfl, ?_, ?_, ?_, ?_⟩ <;>
    intro x hx <;> rw [hev, hit] at hx <;>
    simp only [List.mem_append, List.mem_singleton] at hx <;>
    rcases hx with hx | hx
  all_goals first
    | exact absurd hx (not_mem_record _ _ _ _ _ rfl)
    | cases hx

theorem done_stops_loop_witness :
    (Run (sampleEnv doneSecond [lit "more detail"]) ⟨.plan, lit "build a CLI tool", 5, false⟩
        ⟨false, none⟩).rounds.length = 1 + 1 ∧
      (Run (sampleEnv doneSecond [lit "more detail"]) ⟨.plan, lit "build a CLI tool", 5, false⟩
        ⟨false, none⟩).exitCode = some 0 :=
  have h := done_stops_loop (sampleEnv doneSecond [lit "more detail"])
    ⟨.plan, lit "build a CLI tool", 5, false⟩ ⟨false, none⟩ 1
    ((Run (sampleEnv doneSecond [lit "more detail"]) ⟨.plan, lit "build a CLI tool", 5, false⟩
        ⟨false, none⟩).rounds.getD 1 []) (by rfl) (by decide)
  ⟨h.1, h.2.1⟩

/-- C10: for every list of top-level entries, the names the loop collects are
those of the entries whose name does not start with `.`, and of `.ralph`, in
their order, a directory with `/` after its name; so no such entry is dropped
and every name listed comes from such an entry; and the prompt is the sections
before the workspace section, then the workspace heading, `Files: ` followed by
these names joined by `, `, and a blank line, then the sections after it. -/
theorem workspace_listing (systemPrompt : Str) (sub : Subcommand) (goal userFeedback : Str)
    (d : Disk) :
    fileList d.entries = (d.entries.filter Spec.listed).map Spec.shown ∧
      (∀ f ∈ d.entries, f.name.head? ≠ some '.' ∨ f.name = ".ralph".toList →
        (if f.isDir then f.name ++ "/".toList else f.name) ∈ fileList d.entries) ∧
      (∀ x ∈ fileList d.entries, ∃ f ∈ d.entries,
        (f.name.head? ≠ some '.' ∨ f.name = ".ralph".toList) ∧
          x = if f.isDir then f.name ++ "/".toList else f.name) ∧
      assemblePrompt systemPrompt (phase sub) goal userFeedback d =
        (((Spec.sections systemPrompt sub goal userFeedback d).take 4).filterMap id).flatten ++
          ("# CURRENT WORKSPACE\n".toList ++
            ("Files: ".toList ++
              List.intercalate ", ".toList ((d.entries.filter Spec.listed).map Spec.shown)) ++
            "\n\n".toList) ++
          (((Spec.sections systemPrompt sub goal userFeedback d).drop 5).filterMap id).flatten := by
  have hfl : fileList d.entries = (d.entries.filter Spec.listed).map Spec.shown := fileList_eq _
  refine ⟨hfl, ?_, ?_, ?_⟩
  · intro f hf hkeep
    rw [hfl]
    refine List.mem_map.2 ⟨f, List.mem_filter.2 ⟨hf, ?_⟩, rfl⟩
    show listed f = true
    rcases hkeep with h | h
    · simp [listed, h]
    · have h' : f.name = lit ".ralph" := h
      simp [listed, h']
  · intro x hx
    rw [hfl] at hx
    obtain ⟨f, hf, rfl⟩ := List.mem_map.1 hx
    obtain ⟨hf1, hf2⟩ := List.mem_filter.1 hf
    refine ⟨f, hf1, ?_, rfl⟩
    have hf3 : listed f = true := hf2
    have hf4 : f.name.head? ≠ some '.' ∨ f.name = lit ".ralph" := by simpa [listed] using hf3
    exact hf4
  · rw [assemblePrompt_spec]
    have hsplit : Spec.sections systemPrompt sub goal userFeedback d =
        (Spec.sections systemPrompt sub goal userFeedback d).take 4 ++
          some (Spec.headed "# CURRENT WORKSPACE\n".toList (Spec.listing d.entries)) ::
            (Spec.sections systemPrompt sub goal userFeedback d).drop 5 := rfl
    unfold Spec.prompt
    conv_lhs => rw [hsplit]
    rw [List.filterMap_append, List.flatten_append, List.append_assoc]
    rfl

theorem optionalSection_ends (heading : Str) (file : Option Str) :
    ∀ sec, optionalSection heading file = some sec → ∃ body, sec = body ++ lit "\n\n" := by
  intro sec h
  rcases file with _ | content
  · simp [optionalSection] at h
  · by_cases hc : content = []
    · simp [optionalSection, hc] at h
    · simp only [optionalSection, hc, if_false, Option.some.injEq] at h
      exact ⟨heading ++ content, h.symm⟩

theorem prdSection_ends (d : Disk) : ∃ body, prdSection d = body ++ lit "\n\n" := by
  unfold prdSection
  rcases d.prdJson with _ | json <;> rcases d.prdMd with _ | md
  · exact ⟨lit "# PROJECT PROGRESS\n" ++ lit "No PRD generated yet.", by
      simp only [List.append_assoc]⟩
  · exact ⟨lit "# PROJECT PROGRESS\n" ++ (lit "## Current PRD (Markdown):\n" ++ md), by
      simp only [List.append_assoc]⟩
  · exact ⟨lit "# PROJECT PROGRESS\n" ++ (lit "## Current PRD (JSON):\n" ++ json), by
      simp only [List.append_assoc]⟩
  · exact ⟨lit "# PROJECT PROGRESS\n" ++ (lit "## Current PRD (JSON):\n" ++ json), by
      simp only [List.append_assoc]⟩

theorem qaSection_ends (d : Disk) : ∃ body, qaSection d = body ++ lit "\n\n" := by
  unfold qaSection
  rcases d.qaPlan with _ | qa
  · exact ⟨lit "No QA Plan generated yet.", rfl⟩
  · exact ⟨lit "## Current QA Plan:\n" ++ qa, rfl⟩

theorem sections_end (systemPrompt : Str) (sub : Subcommand) (goal userFeedback : Str)
    (d : Disk) :
    ∀ sec ∈ (sections systemPrompt sub goal userFeedback d).filterMap id,
      ∃ body, sec = body ++ lit "\n\n" := by
  intro sec hsec
  simp only [sections, List.mem_filterMap, id, List.mem_cons, List.mem_singleton, exists_eq_right,
    List.not_mem_nil, or_false] at hsec
  rcases hsec with h | h | h | h | h | h | h | h | h | h
  · obtain rfl := Option.some.inj h
    exact ⟨lit "# SYSTEM PROMPT\n" ++ systemPrompt, rfl⟩
  · obtain rfl := Option.some.inj h
    exact ⟨lit "# CURRENT PHASE\n" ++ phase sub, rfl⟩
  · obtain rfl := Option.some.inj h
    exact ⟨lit "# USER GOAL\n" ++ goal, rfl⟩
  · by_cases hf : userFeedback = []
    · simp [feedbackSection, hf] at h
    · simp only [feedbackSection, hf, if_false, Option.some.injEq] at h
      exact ⟨lit "# USER FEEDBACK / ANSWERS\n" ++ userFeedback, h⟩
  · obtain rfl := Option.some.inj h
    exact ⟨lit "# CURRENT WORKSPACE\n" ++ listingSpec d.entries, rfl⟩
  · obtain rfl := Option.some.inj h
    exact prdSection_ends d
  · obtain rfl := Option.some.inj h
    exact qaSection_ends d
  · exact optionalSection_ends _ _ _ h.symm
  · exact optionalSection_ends _ _ _ h.symm
  · exact optionalSection_ends _ _ _ h.symm

set_option maxRecDepth 100000 in
theorem workspace_listing_witness :
    assemblePrompt (lit "SYS") (phase .run) (lit "ship it") [] sampleDisk =
      "# SYSTEM PROMPT\nSYS\n\n# CURRENT PHASE\nEXECUTION PHASE: Implement the approved plan story by story. Run verification scripts.\n\n# USER GOAL\nship it\n\n# CURRENT WORKSPACE\nFiles: .ralph/, a.go, cmd/\n\n# PROJECT PROGRESS\nNo PRD generated yet.\n\nNo QA Plan generated yet.\n\n".toList :=
  (workspace_listing (lit "SYS") .run (lit "ship it") [] sampleDisk).2.2.2.trans (by decide)

/-- C8: in every iteration that runs, one prompt is written, and it is the
concatenation, in this order, of the sections that are present among: system
prompt, phase directive (the planning directive for `plan`, the execution
directive for `run`), goal, feedback (present when the pending feedback is not
empty; the pending feedback is nothing in the first iteration and afterwards
the line the iteration before read), workspace listing, PRD (JSON, else
Markdown, else the placeholder), QA plan (or its placeholder), progress log,
guardrails and error notes (each present when its file is readable and not
empty); every section present ends with a blank line. The fragments may all be
missing. -/
theorem prompt_sections (env : Env) (s : Session) (store : Store) (k : Nat) (r : List Event)
    (hr : (Run env s store).rounds[k]? = some r) :
    Event.writePrompt
        (Spec.prompt env.systemPrompt s.subcommand s.goal
          (Spec.pendingFeedback (Run env s store).rounds k) (env.disk (k + 1)))
        (env.writePromptOk (k + 1)) ∈ r ∧
      (∀ p ok, Event.writePrompt p ok ∈ r →
        p = Spec.prompt env.systemPrompt s.subcommand s.goal
          (Spec.pendingFeedback (Run env s store).rounds k) (env.disk (k + 1))) ∧
      (Spec.sections env.systemPrompt s.subcommand s.goal
        (Spec.pendingFeedback (Run env s store).rounds k) (env.disk (k + 1))).length = 10 ∧
      ∀ sec ∈ (Spec.sections env.systemPrompt s.subcommand s.goal
          (Spec.pendingFeedback (Run env s store).rounds k) (env.disk (k + 1))).filterMap id,
        ∃ body, sec = body ++ "\n\n".toList := by
  obtain ⟨-, hev, -, -, -⟩ := Run_rounds_getElem env s store k r hr
  have hp : ∀ p ok, Event.writePrompt p ok ∈ r ↔
      p = Spec.prompt env.systemPrompt s.subcommand s.goal
          (Spec.pendingFeedback (Run env s store).rounds k) (env.disk (k + 1)) ∧
        ok = env.writePromptOk (k + 1) := by
    intro p ok
    rw [hev, roundOf_eq, writePrompt_mem_iteration, pendingFeedback_eq env s store k r hr,
      assemblePrompt_spec]
  have hend := sections_end env.systemPrompt s.subcommand s.goal
    (Spec.pendingFeedback (Run env s store).rounds k) (env.disk (k + 1))
  rw [sections_eq] at hend
  exact ⟨(hp _ _).2 ⟨rfl, rfl⟩, fun p ok h => ((hp p ok).1 h).1, rfl, hend⟩

set_option maxRecDepth 100000 in
theorem prompt_sections_witness :
    Event.writePrompt
        "# SYSTEM PROMPT\nSYS\n\n# CURRENT PHASE\nPLANNING PHASE: You are in DESIGN mode. ONLY modify .ralph/ files. DO NOT write code or install dependencies. Once the plan is ready, STOP and wait for approval.\n\n# USER GOAL\nbuild a CLI tool\n\n# USER FEEDBACK / ANSWERS\nmore detail\n\n# CURRENT WORKSPACE\nFiles: .ralph/, main.go, pkg/\n\n# PROJECT PROGRESS\n## Current PRD (JSON):\n[]\n\n## Current QA Plan:\nrun tests\n\n## Progress Log:\nstep 1\n\n".toList
        true ∈
      (Run (busyEnv [lit "more detail"]) ⟨.plan, lit "build a CLI tool", 3, false⟩
        ⟨false, none⟩).rounds.getD 1 [] :=
  (prompt_sections (busyEnv [lit "more detail"]) ⟨.plan, lit "build a CLI tool", 3, false⟩
    ⟨false, none⟩ 1
    ((Run (busyEnv [lit "more detail"]) ⟨.plan, lit "build a CLI tool", 3, false⟩
      ⟨false, none⟩).rounds.getD 1 []) (by rfl)).1

/-- C2, refuted as stated: a `plan` session whose approval cannot be written
ends with status 1 and leaves the prompt document it wrote in place, and the
abort of `run` leaves a prompt document found at start in place; neither
attempts the removal. And a session that ends by DONE while `os.Remove` fails
returns with the prompt document in place. -/
theorem prompt_left_behind :
    (Run failingApproval ⟨.plan, lit "build a CLI tool", 3, false⟩ ⟨false, none⟩).exitCode =
        some 1 ∧
      (Run failingApproval ⟨.plan, lit "build a CLI tool", 3, false⟩
        ⟨false, none⟩).store.prompt.isSome = true ∧
      (Run failingApproval ⟨.plan, lit "build a CLI tool", 3, false⟩ ⟨false, none⟩).cleanup = [] ∧
      (Run (sampleEnv neverDone []) ⟨.run, lit "ship it", 3, false⟩
        ⟨false, some (lit "stale")⟩).exitCode = some 1 ∧
      (Run (sampleEnv neverDone []) ⟨.run, lit "ship it", 3, false⟩
        ⟨false, some (lit "stale")⟩).store.prompt = some (lit "stale") ∧
      (Run stuckPrompt ⟨.plan, lit "build a CLI tool", 3, false⟩ ⟨false, none⟩).cleanup =
        [.removePrompt false, .log .removePromptWarning, .log .finished] ∧
      (Run stuckPrompt ⟨.plan, lit "build a CLI tool", 3, false⟩
        ⟨false, none⟩).store.prompt.isSome = true := by
  refine ⟨by rfl, by rfl, by rfl, by rfl, by rfl, by rfl, by rfl⟩

/-- C2, amended: in a session that is neither aborted by the approval gate of
`run` nor ended by a failing write of the marker (DONE signalled, approval
written, iterations exhausted or none allowed), the removal of the prompt
document is attempted once, after the loop, a failure is logged as a warning,
and when `os.Remove` does not fail on an existing document there is no prompt
document at the end. A session that the approval gate aborts attempts no
removal and leaves the files as it found them; a session in which a write of
the marker fails attempts no removal. -/
theorem prompt_removed_when_loop_left (env : Env) (s : Session) (store : Store) :
    (¬ (s.subcommand = .run ∧ store.approved = false) →
        Event.writeApproved false ∉ (Run env s store).trace →
        (∃ ok, (Run env s store).cleanup =
          [Event.removePrompt ok] ++ (if ok then [] else [Event.log .removePromptWarning]) ++
            [Event.log .finished]) ∧
        (∀ ok, Event.removePrompt ok ∉ (Run env s store).startup ++
          (Run env s store).rounds.flatten) ∧
        (env.removePromptOk = true → (Run env s store).store.prompt = none)) ∧
      (s.subcommand = .run ∧ store.approved = false →
        (∀ ok, Event.removePrompt ok ∉ (Run env s store).trace) ∧
          (Run env s store).store = store) ∧
      (Event.writeApproved false ∈ (Run env s store).trace →
        ∀ ok, Event.removePrompt ok ∉ (Run env s store).trace) := by
  by_cases hg : s.subcommand = .run ∧ store.approved = false
  · rw [Run_aborted env s store hg.1 hg.2]
    simp [Outcome.trace, hg]
  · have hout := entered_ending env s store
    have hfat : Event.writeApproved false ∈ (entered env s store).rounds.flatten ↔
        (entered env s store).ending = .fatal :=
      loop_fatal_iff env s (enteredComplete s store) s.maxIter.toNat 1
        ⟨[], env.stdin, enteredStore env s store⟩
    have hrem : ∀ ok, Event.removePrompt ok ∉ (entered env s store).rounds.flatten :=
      loop_removePrompt env s (enteredComplete s store) s.maxIter.toNat 1
        ⟨[], env.stdin, enteredStore env s store⟩
    have hst : ∀ e, e = Event.writeApproved false ∨ (∃ ok, e = Event.removePrompt ok) →
        e ∉ enteredStartup env s store := by
      intro e he hmem
      rcases enteredStartup_mem env s store e hmem with h | h | h <;>
        rcases he with he | ⟨ok, he⟩ <;> rw [he] at h <;> cases h
    have hw := hst _ (Or.inl rfl)
    have hr : ∀ ok, Event.removePrompt ok ∉ enteredStartup env s store :=
      fun ok => hst _ (Or.inr ⟨ok, rfl⟩)
    rw [Run_entered env s store hg]
    cases hE : (entered env s store).ending with
    | outOfFuel => exact absurd hE hout
    | fatal =>
      have hmem := hfat.2 hE
      simp [Outcome.trace, hg, hw, hr, hrem, hmem]
    | left =>
      have hmem : Event.writeApproved false ∉ (entered env s store).rounds.flatten := by
        intro h
        rw [hfat.1 h] at hE
        cases hE
      refine ⟨?_, fun h => absurd h hg, ?_⟩
      · intro _ _
        refine ⟨⟨_, rfl⟩, ?_, ?_⟩
        · intro ok
          simp [hr, hrem]
        · intro hok
          unfold removalOk
          rcases hp : (entered env s store).state.store.prompt with _ | p
          · simp [hp]
          · simp [hok]
      · intro h
        exfalso
        cases hok : removalOk env (entered env s store).state.store <;>
          simp [Outcome.trace, hw, hmem, hok] at h

theorem prompt_removed_when_loop_left_witness :
    (Run (sampleEnv doneSecond [lit "more detail"]) ⟨.plan, lit "build a CLI tool", 5, false⟩
        ⟨false, none⟩).store.prompt = none :=
  ((prompt_removed_when_loop_left (sampleEnv doneSecond [lit "more detail"])
    ⟨.plan, lit "build a CLI tool", 5, false⟩ ⟨false, none⟩).1 (by decide) (by decide)).2.2 rfl

/-- C3, refuted as stated: the operator approves at the first prompt of a `plan`
session, the write of the marker fails, and the session ends with status 1 and
without the marker. -/
theorem approval_not_written :
    Event.scan (some (lit "approve")) ∈
        (Run failingApproval ⟨.plan, lit "build a CLI tool", 3, false⟩
          ⟨false, none⟩).rounds.getD 0 [] ∧
      ToLower (TrimSpace (lit "approve")) = lit "approve" ∧
      (Run failingApproval ⟨.plan, lit "build a CLI tool", 3, false⟩
        ⟨false, none⟩).store.approved = false ∧
      (Run failingApproval ⟨.plan, lit "build a CLI tool", 3, false⟩ ⟨false, none⟩).exitCode =
        some 1 := by
  refine ⟨by decide, by decide, by rfl, by rfl⟩

/-- C3, amended: in every `plan` session, if iteration `k + 1` reads a line
that is `approve` once trimmed and lower-cased, then the iteration is not the
last allowed, it attempts the write of the marker, and no further iteration
runs (so the line is never feedback); when the write succeeds the session
returns with status 0 and the marker is present at its end; when the write
fails the session ends with status 1. -/
theorem approve_ends_plan (env : Env) (s : Session) (store : Store) (hs : s.subcommand = .plan)
    (k : Nat) (r : List Event) (line : Str)
    (hr : (Run env s store).rounds[k]? = some r) (hline : Event.scan (some line) ∈ r)
    (happ : ToLower (TrimSpace line) = lit "approve") :
    (k : Int) + 1 < s.maxIter ∧ Event.writeApproved (env.writeApprovedOk (k + 1)) ∈ r ∧
      (Run env s store).rounds.length = k + 1 ∧
      (env.writeApprovedOk (k + 1) = true →
        (Run env s store).exitCode = some 0 ∧ (Run env s store).store.approved = true) ∧
      (env.writeApprovedOk (k + 1) = false → (Run env s store).exitCode = some 1) := by
  obtain ⟨hg, hev, -, -, hk⟩ := Run_rounds_getElem env s store k r hr
  have hpc := enteredComplete_plan s store hs
  have hisApp : isApprove line = true := by simp [isApprove, happ]
  have hround := roundOf_eq env s store k
  obtain ⟨c, hc, heq⟩ := iteration_ending env s (enteredComplete s store) (k + 1)
    (stateAt env s (enteredComplete s store) 1 ⟨[], env.stdin, enteredStore env s store⟩ k)
  rw [heq] at hround
  have hnr := not_mem_record env s (k + 1) (stateAt env s (enteredComplete s store) 1
    ⟨[], env.stdin, enteredStore env s store⟩ k) (.scan (some line)) rfl
  rw [hev, hround] at hline
  simp only [List.mem_append, hnr, false_or] at hline
  cases hc with
  | done h => simp at hline
  | last h hi => simp only at hline; split at hline <;> simp at hline
  | eof h hi hin => simp at hline
  | approve input rest h hi hin hs' hpc' ha hw =>
    simp at hline
    subst hline
    have hctl : (roundOf env s store k).control ≠ .next := by rw [hround]; simp
    obtain ⟨h1, -, h3, h4⟩ := Run_halt_at env s store hg k hk hctl
    refine ⟨hi, ?_, h1, ?_, ?_⟩
    · rw [hev, hround, hw]
      simp
    · intro _
      refine ⟨by rw [h3, hround]; simp, ?_⟩
      rw [Run_store_approved env s store hg, h4, hround]
    · intro hw'
      rw [hw] at hw'
      cases hw'
  | fatal input rest h hi hin hs' hpc' ha hw =>
    simp at hline
    subst hline
    have hctl : (roundOf env s store k).control ≠ .next := by rw [hround]; simp
    obtain ⟨h1, -, h3, h4⟩ := Run_halt_at env s store hg k hk hctl
    refine ⟨hi, ?_, h1, ?_, ?_⟩
    · rw [hev, hround, hw]
      simp
    · intro hw'
      rw [hw] at hw'
      cases hw'
    · intro _
      rw [h3, hround]
      simp
  | feedback input rest h hi hin hna =>
    simp at hline
    subst hline
    exact absurd ⟨hs, hpc, hisApp⟩ hna

theorem approve_ends_plan_witness :
    (Run (sampleEnv neverDone [lit "more detail", lit " Approve "])
        ⟨.plan, lit "build a CLI tool", 5, false⟩ ⟨false, none⟩).rounds.length = 1 + 1 ∧
      (Run (sampleEnv neverDone [lit "more detail", lit " Approve "])
        ⟨.plan, lit "build a CLI tool", 5, false⟩ ⟨false, none⟩).store.approved = true :=
  have h := approve_ends_plan (sampleEnv neverDone [lit "more detail", lit " Approve "])
    ⟨.plan, lit "build a CLI tool", 5, false⟩ ⟨false, none⟩ rfl 1
    ((Run (sampleEnv neverDone [lit "more detail", lit " Approve "])
        ⟨.plan, lit "build a CLI tool", 5, false⟩ ⟨false, none⟩).rounds.getD 1 [])
    (lit " Approve ") (by rfl) (by decide) (by decide)
  ⟨h.2.2.1, (h.2.2.2.1 rfl).2⟩

/-- C6, refuted as stated: `plan` is started with the marker present, the
removal of the marker fails, the session ends without an approval, the marker
is still there and a following `run` passes the approval gate. -/
theorem marker_survives_failed_removal :
    (∀ ok, Event.writeApproved ok ∉
        (Run stuckMarker ⟨.plan, lit "add a feature", 3, false⟩ ⟨true, none⟩).trace) ∧
      (Run stuckMarker ⟨.plan, lit "add a feature", 3, false⟩ ⟨true, none⟩).store.approved =
        true ∧
      (Run stuckMarker ⟨.run, [], 3, false⟩
        (Run stuckMarker ⟨.plan, lit "add a feature", 3, false⟩ ⟨true, none⟩).store).exitCode =
        some 0 ∧
      (Run stuckMarker ⟨.run, [], 3, false⟩
        (Run stuckMarker ⟨.plan, lit "add a feature", 3, false⟩
          ⟨true, none⟩).store).rounds.length = 1 := by
  refine ⟨by decide, by rfl, by rfl, by rfl⟩

/-- C6, amended: a `plan` session started while the marker is present attempts
the removal of the marker before its first iteration and logs a warning when
the removal fails; in either case it runs in the un-approved planning state
(every question it prints is the one that offers `approve`); when the removal
succeeds and the session ends without an approval (DONE, or iterations
exhausted: no write of the marker is attempted), the marker is absent at its
end and every `run` started then aborts with status 1 before any iteration. -/
theorem plan_clears_marker (env : Env) (s : Session) (store : Store)
    (hs : s.subcommand = .plan) (hm : store.approved = true) :
    (Run env s store).startup =
        [Event.log .existingPlan, .removeApproved env.removeApprovedOk] ++
          (if env.removeApprovedOk then [] else [Event.log .removeApprovalWarning]) ∧
      (∀ r ∈ (Run env s store).rounds, ∀ q, Event.ask q ∈ r → q = .approveOrFeedback) ∧
      (env.removeApprovedOk = true →
        (∀ ok, Event.writeApproved ok ∉ (Run env s store).trace) →
        (Run env s store).store.approved = false ∧
          ∀ (env' : Env) (s' : Session), s'.subcommand = .run →
            (Run env' s' (Run env s store).store).exitCode = some 1 ∧
              (Run env' s' (Run env s store).store).rounds = [] ∧
              (Run env' s' (Run env s store).store).trace = [.log .planNotApproved]) := by
  have hg : ¬ (s.subcommand = .run ∧ store.approved = false) := by simp [hs]
  have hpc := enteredComplete_plan s store hs
  refine ⟨?_, ?_, ?_⟩
  · rw [Run_startup env s store hg]
    simp [enteredStartup, hs, hm]
  · intro r hr q hq
    obtain ⟨k, hk⟩ := List.mem_iff_getElem?.1 hr
    obtain ⟨-, hev, -, -, -⟩ := Run_rounds_getElem env s store k r hk
    rw [hev, roundOf_eq] at hq
    rw [ask_mem_iteration _ _ _ _ _ _ hq, hpc]
    simp [question, hs]
  · intro hok hno
    have hfalse : (Run env s store).store.approved = false := by
      rcases hfin : (Run env s store).store.approved with _ | _
      · rfl
      · rcases Run_approved env s store hg hfin with h | ⟨ok, h⟩
        · simp [enteredStore, hs, hm, hok] at h
        · exact absurd h (hno ok)
    refine ⟨hfalse, fun env' s' hs' => ?_⟩
    rw [Run_aborted env' s' _ hs' hfalse]
    simp [Outcome.trace]

theorem plan_clears_marker_witness :
    (Run (sampleEnv doneAtOnce []) ⟨.plan, lit "add a feature", 3, false⟩
        ⟨true, none⟩).store.approved = false ∧
      (Run (sampleEnv doneAtOnce []) ⟨.run, [], 3, false⟩
        (Run (sampleEnv doneAtOnce []) ⟨.plan, lit "add a feature", 3, false⟩
          ⟨true, none⟩).store).exitCode = some 1 :=
  have h := (plan_clears_marker (sampleEnv doneAtOnce []) ⟨.plan, lit "add a feature", 3, false⟩
    ⟨true, none⟩ rfl rfl).2.2 rfl (by decide)
  ⟨h.1, (h.2 (sampleEnv doneAtOnce []) ⟨.run, [], 3, false⟩ rfl).1⟩

/-- C7: for every `maxIter ≥ 1` and every session that enters the loop (`plan`,
or `run` with the marker present), in which no agent output of iterations
`1..maxIter` contains `DONE` and, for `plan`, no line read is an approval:
exactly `maxIter` iterations run; standard input is read in iteration `k + 1`
exactly when `k + 1 < maxIter`; the notice of the last iteration is logged in
iteration `k + 1` exactly when `k + 1 = maxIter`, and once in the whole
session; the session returns with status 0 after the removal of the prompt
document and the final log line. -/
theorem exhausts_iterations (env : Env) (s : Session) (store : Store) (hmax : 1 ≤ s.maxIter)
    (hg : s.subcommand = .run → store.approved = true)
    (hdone : ∀ i, 1 ≤ i → i ≤ s.maxIter →
      Contains (ToUpper (runAgent (env.agent i) s.verbose).output) (lit "DONE") = false)
    (happ : s.subcommand = .plan → ∀ line, Event.scan (some line) ∈ (Run env s store).trace →
      ToLower (TrimSpace line) ≠ lit "approve") :
    (Run env s store).rounds.length = s.maxIter.toNat ∧
      (∀ (k : Nat) (r : List Event), (Run env s store).rounds[k]? = some r →
        ((∃ line, Event.scan line ∈ r) ↔ (k : Int) + 1 < s.maxIter)) ∧
      (∀ (k : Nat) (r : List Event), (Run env s store).rounds[k]? = some r →
        (Event.log .maxIterations ∈ r ↔ (k : Int) + 1 = s.maxIter)) ∧
      (Run env s store).trace.count (.log .maxIterations) = 1 ∧
      (Run env s store).exitCode = some 0 ∧
      (∃ ok, Event.removePrompt ok ∈ (Run env s store).cleanup) ∧
      Event.log .finished ∈ (Run env s store).cleanup := by
  have hgate : ¬ (s.subcommand = .run ∧ store.approved = false) := by
    intro h
    have := hg h.1
    rw [h.2] at this
    cases this
  have hdone' : ∀ i, 1 ≤ i → i ≤ s.maxIter →
      isDone (runAgent (env.agent i) s.verbose).output = false := hdone
  have hnext_of : ∀ j, j < (entered env s store).rounds.length → (j : Int) + 1 ≤ s.maxIter →
      (roundOf env s store j).control = .next := by
    intro j hj hjm
    by_contra hne
    have hr : (Run env s store).rounds[j]? = some (roundOf env s store j).events := by
      rw [Run_rounds env s store hgate]
      exact entered_getElem env s store j hj
    rw [roundOf_eq] at hne
    rcases iteration_halts _ _ _ _ _ hne with h | ⟨line, hl, hs, ha⟩
    · rw [hdone' _ (by omega) hjm] at h
      cases h
    · refine happ hs line (mem_trace_of_round env s store j _ hr _ ?_) ?_
      · rw [roundOf_eq]
        exact hl
      · simpa [isApprove] using ha
  have hall : ∀ j : Nat, (j : Int) + 1 ≤ s.maxIter →
      j < (entered env s store).rounds.length ∧ (roundOf env s store j).control = .next := by
    intro j
    induction j with
    | zero =>
      intro h0
      have hpos : 0 < (entered env s store).rounds.length := by
        unfold entered
        obtain ⟨n, hn⟩ : ∃ n, s.maxIter.toNat = n + 1 := ⟨s.maxIter.toNat - 1, by omega⟩
        rw [hn]
        exact loop_nonempty _ _ _ _ _ _ hmax
      exact ⟨hpos, hnext_of 0 hpos h0⟩
    | succ j ih =>
      intro hj
      obtain ⟨h1, h2⟩ := ih (by push_cast at hj; omega)
      have h3 := Run_next_at env s store j h1 h2 (by push_cast at hj; omega)
      exact ⟨h3, hnext_of (j + 1) h3 hj⟩
  have hlen : (entered env s store).rounds.length = s.maxIter.toNat := by
    apply le_antisymm
    · by_contra hgt
      have hk : s.maxIter.toNat < (entered env s store).rounds.length := by omega
      have := (loop_rounds_getElem _ _ _ _ _ _ _ _ (entered_getElem env s store _ hk)).2.1
      omega
    · have := (hall (s.maxIter.toNat - 1) (by omega)).1
      omega
  have hE : (entered env s store).ending = .left := by
    cases hE : (entered env s store).ending with
    | left => rfl
    | outOfFuel => exact absurd hE (entered_ending env s store)
    | fatal =>
      obtain ⟨k, hk, hc⟩ := loop_fatal_last _ _ _ _ _ _ hE
      have hk' : (entered env s store).rounds.length = k + 1 := hk
      have := (hall k (by omega)).2
      rw [show roundOf env s store k = roundAt env s (enteredComplete s store) 1
        ⟨[], env.stdin, enteredStore env s store⟩ k from rfl, hc] at this
      cases this
  refine ⟨by rw [Run_rounds env s store hgate]; exact hlen, ?_, ?_, ?_, ?_, ?_, ?_⟩
  · intro k r hr
    obtain ⟨-, hev, hk, -, -⟩ := Run_rounds_getElem env s store k r hr
    rw [hev, roundOf_eq, scan_mem_iteration, hdone' _ (by omega) hk]
    simp
  · intro k r hr
    obtain ⟨-, hev, hk, -, -⟩ := Run_rounds_getElem env s store k r hr
    rw [hev, roundOf_eq, ← List.count_pos_iff, notice_count_iteration,
      hdone' _ (by omega) hk]
    by_cases he : (k : Int) + 1 = s.maxIter <;> simp [he]
  · have hst : (enteredStartup env s store).count (.log .maxIterations) = 0 := by
      apply List.count_eq_zero.2
      intro hmem
      rcases enteredStartup_mem env s store _ hmem with h | h | h <;> cases h
    have hfl : (entered env s store).rounds.flatten.count (.log .maxIterations) = 1 :=
      loop_notice_count env s (enteredComplete s store) s.maxIter.toNat 1
        ⟨[], env.stdin, enteredStore env s store⟩ (by omega) hmax
        (fun j hj hj' => hdone' j hj hj') (fun j hj => (hall j (by omega)).2)
    rw [Run_entered env s store hgate, hE]
    simp only [Outcome.trace, List.count_append, hst, hfl]
    cases removalOk env (entered env s store).state.store <;> simp [List.count_cons]
  · rw [Run_exitCode env s store hgate, hE]
    rfl
  · rw [Run_entered env s store hgate, hE]
    exact ⟨removalOk env (entered env s store).state.store, by simp⟩
  · rw [Run_entered env s store hgate, hE]
    simp

theorem exhausts_iterations_witness :
    (Run (sampleEnv neverDone [lit "more detail", lit "approve"])
        ⟨.run, lit "ship it", 3, false⟩ ⟨true, none⟩).rounds.length = 3 ∧
      (Run (sampleEnv neverDone [lit "more detail", lit "approve"])
        ⟨.run, lit "ship it", 3, false⟩ ⟨true, none⟩).exitCode = some 0 :=
  have h := exhausts_iterations (sampleEnv neverDone [lit "more detail", lit "approve"])
    ⟨.run, lit "ship it", 3, false⟩ ⟨true, none⟩ (by decide) (fun _ => rfl)
    (fun _ _ _ => rfl) (fun h => by cases h)
  ⟨h.1, h.2.2.2.2.1⟩

/-- C9, refuted as stated: the agent of the first iteration exits with an
error, its output contains `DONE`, and the loop stops there: no question is
printed, no line is read, no second iteration runs. -/
theorem failed_agent_can_signal_done :
    (runAgent ((sampleEnv failedButDone [lit "keep going"]).agent 1) false).err =
        some .finishedWithError ∧
      Contains (ToUpper (runAgent ((sampleEnv failedButDone [lit "keep going"]).agent 1)
        false).output) (lit "DONE") = true ∧
      (Run (sampleEnv failedButDone [lit "keep going"]) ⟨.plan, lit "build a CLI tool", 3, false⟩
        ⟨false, none⟩).rounds.length = 1 ∧
      Event.ask .approveOrFeedback ∉
        (Run (sampleEnv failedButDone [lit "keep going"])
          ⟨.plan, lit "build a CLI tool", 3, false⟩ ⟨false, none⟩).trace ∧
      Event.scan (some (lit "keep going")) ∉
        (Run (sampleEnv failedButDone [lit "keep going"])
          ⟨.plan, lit "build a CLI tool", 3, false⟩ ⟨false, none⟩).trace := by
  refine ⟨by rfl, by decide, by rfl, by decide, by decide⟩

/-- C9, amended: in every iteration that runs and whose agent fails, the error
is logged, the activity line is appended and the raw-output log is written
with the output returned (empty, and so without `DONE`, when the agent failed
to start); the output is then checked for `DONE` as after a success: when it
contains `DONE` the loop stops there with status 0; when it does not and the
iteration is not the last allowed, the question is printed and standard input
is read, and unless a line read in a `plan` session is an approval the next
iteration runs. The session ends with status 1 only when a write of the marker
fails. -/
theorem failed_agent_does_not_abort (env : Env) (s : Session) (store : Store) (k : Nat)
    (r : List Event) (e : AgentError) (hr : (Run env s store).rounds[k]? = some r)
    (herr : (runAgent (env.agent (k + 1)) s.verbose).err = some e) :
    Event.log (.agentError e) ∈ r ∧
      Event.appendActivity (k + 1) s.subcommand (env.appendActivity (k + 1)) ∈ r ∧
      Event.writeRunLog (k + 1) (runAgent (env.agent (k + 1)) s.verbose).output
        (env.writeRunLogOk (k + 1)) ∈ r ∧
      (e = .failedToStart → (runAgent (env.agent (k + 1)) s.verbose).output = [] ∧
        Contains (ToUpper (runAgent (env.agent (k + 1)) s.verbose).output) (lit "DONE") =
          false) ∧
      (Contains (ToUpper (runAgent (env.agent (k + 1)) s.verbose).output) (lit "DONE") = true →
        (Run env s store).rounds.length = k + 1 ∧ (Run env s store).exitCode = some 0) ∧
      (Contains (ToUpper (runAgent (env.agent (k + 1)) s.verbose).output) (lit "DONE") = false →
        (k : Int) + 1 < s.maxIter →
        (∃ q, Event.ask q ∈ r) ∧ (∃ line, Event.scan line ∈ r) ∧
          ((∀ line, Event.scan (some line) ∈ r →
              ¬ (s.subcommand = .plan ∧ ToLower (TrimSpace line) = lit "approve")) →
            k + 1 < (Run env s store).rounds.length)) ∧
      ((Run env s store).exitCode = some 1 →
        Event.writeApproved false ∈ (Run env s store).trace) := by
  obtain ⟨hg, hev, -, -, hk⟩ := Run_rounds_getElem env s store k r hr
  have hround := roundOf_eq env s store k
  obtain ⟨c, hc, heq⟩ := iteration_ending env s (enteredComplete s store) (k + 1)
    (stateAt env s (enteredComplete s store) 1 ⟨[], env.stdin, enteredStore env s store⟩ k)
  have hrec : ∀ x, x ∈ (record env s (k + 1) (stateAt env s (enteredComplete s store) 1
      ⟨[], env.stdin, enteredStore env s store⟩ k)).events → x ∈ r := by
    intro x hx
    rw [hev, hround, heq]
    exact List.mem_append_left _ hx
  refine ⟨hrec _ ((agentError_mem_record _ _ _ _ _).2 herr),
    hrec _ ((appendActivity_mem_record _ _ _ _ _ _ _).2 ⟨rfl, rfl, rfl⟩),
    hrec _ ((writeRunLog_mem_record _ _ _ _ _ _ _).2 ⟨rfl, rfl, rfl⟩), ?_, ?_, ?_, ?_⟩
  · intro he
    subst he
    have hout : (runAgent (env.agent (k + 1)) s.verbose).output = [] := by
      rcases hp : env.agent (k + 1) with _ | ⟨out, _ | _⟩ <;> simp [runAgent, hp] at herr ⊢
    rw [hout]
    exact ⟨rfl, by decide⟩
  · intro hdone
    have hit : (roundOf env s store k).control = .stop := by
      rw [hround]
      unfold iteration
      simp only [record_userFeedback, record_output]
      rw [conclude_done _ _ _ _ _ _ hdone]
    obtain ⟨h1, -, h3, -⟩ := Run_halt_at env s store hg k hk (by rw [hit]; simp)
    exact ⟨h1, by rw [h3, hit]; rfl⟩
  · intro hdone hlt
    have hdone' : isDone (runAgent (env.agent (k + 1)) s.verbose).output = false := hdone
    refine ⟨⟨question s (enteredComplete s store), ?_⟩, ?_, ?_⟩
    · rw [hev, hround]
      exact ask_mem_iteration_of _ _ _ _ _ hdone' hlt
    · rw [hev, hround]
      exact (scan_mem_iteration _ _ _ _ _).2 ⟨hdone', hlt⟩
    · intro hno
      rw [Run_rounds env s store hg]
      refine Run_next_at env s store k hk ?_ (by omega)
      by_contra hne
      rw [hround] at hne
      rcases iteration_halts _ _ _ _ _ hne with h | ⟨line, hl, hs, ha⟩
      · rw [hdone'] at h
        cases h
      · refine hno line ?_ ⟨hs, by simpa [isApprove] using ha⟩
        rw [hev, hround]
        exact hl
  · intro hexit
    rcases (Run_exit_one_iff env s store).1 hexit with h | h
    · exact absurd h hg
    · exact h

theorem failed_agent_does_not_abort_witness :
    Event.log (.agentError .failedToStart) ∈
        (Run (sampleEnv (fun _ => .startFailed) [lit "try again"])
          ⟨.plan, lit "build a CLI tool", 2, false⟩ ⟨false, none⟩).rounds.getD 0 [] ∧
      ∃ line, Event.scan line ∈
        (Run (sampleEnv (fun _ => .startFailed) [lit "try again"])
          ⟨.plan, lit "build a CLI tool", 2, false⟩ ⟨false, none⟩).rounds.getD 0 [] :=
  have h := failed_agent_does_not_abort (sampleEnv (fun _ => .startFailed) [lit "try again"])
    ⟨.plan, lit "build a CLI tool", 2, false⟩ ⟨false, none⟩ 0
    ((Run (sampleEnv (fun _ => .startFailed) [lit "try again"])
      ⟨.plan, lit "build a CLI tool", 2, false⟩ ⟨false, none⟩).rounds.getD 0 [])
    .failedToStart (by rfl) (by rfl)
  ⟨h.1, (h.2.2.2.2.2.1 (by decide) (by decide)).2.1⟩

/-- C4: in every session (a `plan` session in particular), if iteration `k + 1`
reads a line that is not an approval, then iteration `k + 2` runs and the one
prompt it writes is assembled with that line, unchanged, as the pending
feedback: the line stands verbatim in the prompt, under the feedback heading
when it is not empty. If iteration `k + 3` runs, iteration `k + 2` read
standard input once, and the prompt of iteration `k + 3` is assembled with what
was read then (nothing, when no line was there) as the pending feedback: the
feedback of iteration `k + 1` is not carried over. -/
theorem feedback_single_use (env : Env) (s : Session) (store : Store) (k : Nat)
    (r : List Event) (line : Str) (hr : (Run env s store).rounds[k]? = some r)
    (hline : Event.scan (some line) ∈ r) (hna : ToLower (TrimSpace line) ≠ lit "approve") :
    ∃ r1, (Run env s store).rounds[k + 1]? = some r1 ∧
      Event.writePrompt
        (assemblePrompt env.systemPrompt (phase s.subcommand) s.goal line (env.disk (k + 2)))
        (env.writePromptOk (k + 2)) ∈ r1 ∧
      (∀ p ok, Event.writePrompt p ok ∈ r1 →
        p = assemblePrompt env.systemPrompt (phase s.subcommand) s.goal line (env.disk (k + 2))) ∧
      (∃ front back,
        assemblePrompt env.systemPrompt (phase s.subcommand) s.goal line (env.disk (k + 2)) =
          front ++ line ++ back ∧
        (line ≠ [] → ∃ front', front = front' ++ lit "# USER FEEDBACK / ANSWERS\n")) ∧
      ∀ r2, (Run env s store).rounds[k + 2]? = some r2 →
        ∃ next : Option Str, Event.scan next ∈ r1 ∧ (∀ l, Event.scan l ∈ r1 → l = next) ∧
          ∀ p ok, Event.writePrompt p ok ∈ r2 →
            p = assemblePrompt env.systemPrompt (phase s.subcommand) s.goal (next.getD [])
              (env.disk (k + 3)) := by
  obtain ⟨hg, hev, -, -, hk⟩ := Run_rounds_getElem env s store k r hr
  have hround := roundOf_eq env s store k
  have hisApp : isApprove line = false := by simpa [isApprove] using hna
  rw [hev, hround] at hline
  obtain ⟨hctl, hlt⟩ := iteration_of_feedback _ _ _ _ _ line hline hisApp
  have hfb := (iteration_feedback _ _ _ _ _ _ hline hctl).1
  rw [← hround] at hctl hfb
  have hk1 := Run_next_at env s store k hk hctl (by omega)
  have hr1 : (Run env s store).rounds[k + 1]? = some (roundOf env s store (k + 1)).events := by
    rw [Run_rounds env s store hg]
    exact entered_getElem env s store (k + 1) hk1
  have hp1 : ∀ p ok, Event.writePrompt p ok ∈ (roundOf env s store (k + 1)).events ↔
      p = assemblePrompt env.systemPrompt (phase s.subcommand) s.goal line (env.disk (k + 2)) ∧
        ok = env.writePromptOk (k + 2) := by
    intro p ok
    rw [roundOf_succ, writePrompt_mem_iteration, hfb]
    rfl
  refine ⟨_, hr1, (hp1 _ _).2 ⟨rfl, rfl⟩, fun p ok hp => ((hp1 p ok).1 hp).1,
    feedback_in_prompt _ _ _ _ _, ?_⟩
  intro r2 hr2
  obtain ⟨-, hev2, hk2, hnext2, -⟩ := Run_rounds_getElem env s store (k + 2) r2 hr2
  have hctl1 : (roundOf env s store (k + 1)).control = .next := hnext2 (k + 1) (by omega)
  have hctl1' := hctl1
  rw [roundOf_succ] at hctl1'
  have hnd := iteration_next_not_done _ _ _ _ _ hctl1'
  obtain ⟨next, hnext⟩ := (scan_mem_iteration _ _ _ _ _).2
    ⟨hnd, (by push_cast at hk2; omega : (k : Int) + 2 < s.maxIter)⟩
  obtain ⟨hfb1, huniq⟩ := iteration_feedback _ _ _ _ _ _ hnext hctl1'
  rw [← roundOf_succ] at hnext hfb1 huniq
  refine ⟨next, hnext, huniq, ?_⟩
  intro p ok hp
  have h3 : ((k + 1 : Nat) : Int) + 2 = (k : Int) + 3 := by push_cast; ring
  rw [hev2, roundOf_succ env s store (k + 1), writePrompt_mem_iteration, hfb1, h3] at hp
  exact hp.1

theorem feedback_single_use_witness :
    ∃ r1, (Run (sampleEnv neverDone [lit "more detail"]) ⟨.plan, lit "build a CLI tool", 3, false⟩
        ⟨false, none⟩).rounds[0 + 1]? = some r1 ∧
      Event.writePrompt
        (assemblePrompt (lit "SYS") (phase .plan) (lit "build a CLI tool") (lit "more detail")
          sampleDisk) true ∈ r1 :=
  have h := feedback_single_use (sampleEnv neverDone [lit "more detail"])
    ⟨.plan, lit "build a CLI tool", 3, false⟩ ⟨false, none⟩ 0
    ((Run (sampleEnv neverDone [lit "more detail"]) ⟨.plan, lit "build a CLI tool", 3, false⟩
      ⟨false, none⟩).rounds.getD 0 []) (lit "more detail") (by rfl) (by decide) (by decide)
  h.imp fun _ h1 => ⟨h1.1, h1.2.1⟩

end Loop
